import Mathlib

/-!
# QtAutoUpdater: the update-task scheduling core (`AutoUpdater/updatetask.cpp`)

A shallow embedding of `updatetask.cpp` and theorems about it.

Modelling conventions.

* `NOW` (`QDateTime::currentDateTime()`) is an input: every member function that
  reads the clock takes the clock value `now` (milliseconds since the epoch) as an
  argument; the clock is taken not to advance while one call runs.
* A member function that mutates `this` returns the new object next to its result.
* `QDateTime` is the platform's type.  It is modelled for the UTC time spec: the
  millisecond count of an instant is a `qint64` and wraps around on overflow, and a
  date outside the range of `QDate` gives an invalid value.  Calendar arithmetic is
  the proleptic Gregorian calendar.
* `quint64`, `qint64` and `int` are `Nat`/`Int` with explicit wrap-around.
* `updatetask.h` and `updatescheduler.cpp` are not among the sources.  What they
  declare and this file needs is either a parameter (`initReps`, the values of the
  enumerators `Months` and `Years`) or a definition whose comment says that it is
  modelled from the specification.
-/

namespace QtAutoUpdater

/-! ## Machine integers -/

/-- The value of a C cast to `qint64`: reduction into `[-2^63, 2^63)`. -/
def toInt64 (x : Int) : Int :=
  (x + 2 ^ 63) % 2 ^ 64 - 2 ^ 63

/-- The value of a C cast to `int` (32 bits): reduction into `[-2^31, 2^31)`. -/
def toInt32 (x : Int) : Int :=
  (x + 2 ^ 31) % 2 ^ 32 - 2 ^ 31

/-! ## The platform date-time type -/

/-- `julianDayFromDate` of the platform's `QDate`: the Julian day number of a date of
the proleptic Gregorian calendar.  Years are numbered astronomically (the year before
year 1 is year 0). -/
def julianDayFromDate (year month day : Int) : Int :=
  let a := (14 - month) / 12
  let y := year + 4800 - a
  let m := month + 12 * a - 3
  day + (153 * m + 2) / 5 + 365 * y + y / 4 - y / 100 + y / 400 - 32045

/-- `getDateFromJulianDay` of the platform's `QDate`: year, month and day of a Julian
day number. -/
def getDateFromJulianDay (julianDay : Int) : Int × Int × Int :=
  let a := julianDay + 32044
  let b := (4 * a + 3) / 146097
  let c := a - (146097 * b) / 4
  let d := (4 * c + 3) / 1461
  let e := c - (1461 * d) / 4
  let m := (5 * e + 2) / 153
  let day := e - (153 * m + 2) / 5 + 1
  let month := m + 3 - 12 * (m / 10)
  let year := 100 * b + d - 4800 + m / 10
  (year, month, day)

/-- `QDate::isLeapYear`: the Gregorian leap-year rule. -/
def isLeapYear (y : Int) : Bool :=
  decide ((y % 4 = 0 ∧ y % 100 ≠ 0) ∨ y % 400 = 0)

/-- Number of days of month `m` (1..12) of year `y`. -/
def daysInMonth (y m : Int) : Int :=
  if m = 2 then (if isLeapYear y then 29 else 28)
  else if m = 4 ∨ m = 6 ∨ m = 9 ∨ m = 11 then 30
  else 31

/-- `fixedDate` of the platform's `QDate`: the Julian day of `y`-`m`-`d` with the day
clamped to the length of the month. -/
def fixedDate (y m d : Int) : Int :=
  julianDayFromDate y m (min d (daysInMonth y m))

/-- The Julian day that `QDate::addMonths` computes, on unbounded integers. -/
def dateAddMonths (jd : Int) (n : Int) : Int :=
  let ymd := getDateFromJulianDay jd
  let total := ymd.1 * 12 + (ymd.2.1 - 1) + n
  fixedDate (total / 12) (total % 12 + 1) ymd.2.2

/-- The Julian day that `QDate::addYears` computes, on unbounded integers. -/
def dateAddYears (jd : Int) (n : Int) : Int :=
  let ymd := getDateFromJulianDay jd
  fixedDate (ymd.1 + n) ymd.2.1 ymd.2.2

/-- The Julian day number of 1970-01-01. -/
def epochJulianDay : Int := 2440588

/-- Milliseconds in a day. -/
def msecsPerDay : Int := 86400000

/-- The smallest Julian day of a valid `QDate`. -/
def QDataStream.minJd : Int := -784350574879

/-- The largest Julian day of a valid `QDate`. -/
def QDataStream.maxJd : Int := 784354017364

/-- The platform's `QDateTime`.  `null` is `QDateTime()`; `valid ms` is an instant,
`ms` being the `qint64` count of milliseconds since the epoch; `invalid` is a value
that is neither null nor an instant: what the platform returns when a date leaves the
range of `QDate`. -/
inductive QDateTime where
  | null
  | invalid
  | valid (msecs : Int)
  deriving DecidableEq, Repr

namespace QDateTime

/-- `QDateTime::isNull`. -/
def isNull : QDateTime → Bool
  | null => true
  | invalid => false
  | valid _ => false

/-- `operator<` of `QDateTime`: instants compare by their millisecond value; the
null value and the invalid value are earlier than every instant. -/
def lt : QDateTime → QDateTime → Bool
  | valid a, valid b => decide (a < b)
  | null, valid _ => true
  | invalid, valid _ => true
  | _, null => false
  | _, invalid => false

/-- `operator>` of `QDateTime`. -/
def gt (a b : QDateTime) : Bool := lt b a

/-- `operator>=` of `QDateTime`. -/
def ge (a b : QDateTime) : Bool := !(lt a b)

/-- The `QDateTime` of a Julian day and a time of day in milliseconds: invalid when
the day is outside the range of `QDate`, else the instant, whose millisecond count is
held in a `qint64` (a count beyond that range wraps around). -/
def ofDate (jd tod : Int) : QDateTime :=
  if QDataStream.minJd ≤ jd ∧ jd ≤ QDataStream.maxJd then
    valid (toInt64 ((jd - epochJulianDay) * msecsPerDay + tod))
  else
    invalid

/-- `QDateTime::addMSecs`: the sum is a `qint64` (it wraps around on overflow); a
value that is not an instant gives the null value. -/
def addMSecs : QDateTime → Int → QDateTime
  | null, _ => null
  | invalid, _ => null
  | valid t, n => valid (toInt64 (t + n))

/-- `QDateTime::addSecs`: `addMSecs(s * 1000)`, the product being a `qint64`. -/
def addSecs : QDateTime → Int → QDateTime
  | null, _ => null
  | invalid, _ => null
  | valid t, n => valid (toInt64 (t + toInt64 (n * 1000)))

/-- `QDateTime::addDays`: the date part moves by `n` days, the time of day is kept;
the result is invalid when the date leaves the range of `QDate`. -/
def addDays : QDateTime → Int → QDateTime
  | null, _ => null
  | invalid, _ => invalid
  | valid t, n => ofDate (t / msecsPerDay + epochJulianDay + n) (t % msecsPerDay)

/-- `QDateTime::addMonths`: the date part moves by calendar months, the time of day
is kept; the result is invalid when the date leaves the range of `QDate`, which is
the case whenever the year leaves the range of `int`. -/
def addMonths : QDateTime → Int → QDateTime
  | null, _ => null
  | invalid, _ => invalid
  | valid t, n => ofDate (dateAddMonths (t / msecsPerDay + epochJulianDay) n) (t % msecsPerDay)

/-- `QDateTime::addYears`: the date part moves by calendar years, the time of day is
kept; the result is invalid when the date leaves the range of `QDate`, which is the
case whenever the year leaves the range of `int`. -/
def addYears : QDateTime → Int → QDateTime
  | null, _ => null
  | invalid, _ => invalid
  | valid t, n => ofDate (dateAddYears (t / msecsPerDay + epochJulianDay) n) (t % msecsPerDay)

end QDateTime

/-! ## TimeSpan -/

/-- `TimeSpan::TimeUnit`. -/
inductive TimeUnit where
  | MilliSeconds
  | Seconds
  | Minutes
  | Hours
  | Days
  | Weeks
  | Months
  | Years
  deriving DecidableEq, Repr

/-- Modelled from the spec: the numeric values of the enumerators of
`TimeSpan::TimeUnit` are declared in `updatetask.h`, which is not part of the
sources at hand.  The specification's factor table gives them for
`MilliSeconds` .. `Weeks`; it gives none for `Months` and `Years`, which are the
parameters `months` and `years`. -/
def TimeUnit.value (months years : Nat) : TimeUnit → Nat
  | MilliSeconds => 1
  | Seconds => 1000
  | Minutes => 60000
  | Hours => 3600000
  | Days => 86400000
  | Weeks => 604800000
  | Months => months
  | Years => years

/-- `TimeSpan`: `count` is a `quint64`. -/
structure TimeSpan where
  count : Nat
  unit : TimeUnit
  deriving DecidableEq, Repr

namespace TimeSpan

/-- `TimeSpan::msecs`: `count * unit` in `quint64` arithmetic; `unitValue` gives the
numeric value of each enumerator. -/
def msecs (unitValue : TimeUnit → Nat) (t : TimeSpan) : Nat :=
  (t.count * unitValue t.unit) % 2 ^ 64

/-- `TimeSpan::addToDateTime`.  The products `(qint64)count * 60ll` etc. are taken to
wrap around on overflow. -/
def addToDateTime (t : TimeSpan) (base : QDateTime) : QDateTime :=
  match t.unit with
  | .MilliSeconds => base.addMSecs (toInt64 t.count)
  | .Seconds => base.addSecs (toInt64 t.count)
  | .Minutes => base.addSecs (toInt64 (toInt64 t.count * 60))
  | .Hours => base.addSecs (toInt64 (toInt64 t.count * 3600))
  | .Days => base.addDays (toInt64 t.count)
  | .Weeks => base.addDays (toInt64 (toInt64 t.count * 7))
  | .Months => base.addMonths (toInt32 t.count)
  | .Years => base.addYears (toInt32 t.count)

end TimeSpan

/-- The amount that `TimeSpan::addToDateTime` hands to the platform's `addMSecs`,
`addSecs`, `addDays`, `addMonths` or `addYears`: the count cast to `qint64` (times 60,
3600 or 7 for minutes, hours and weeks) or cast to `int` (months and years). -/
def TimeSpan.castCount (t : TimeSpan) : Int :=
  match t.unit with
  | .MilliSeconds | .Seconds | .Days => toInt64 t.count
  | .Minutes => toInt64 (toInt64 t.count * 60)
  | .Hours => toInt64 (toInt64 t.count * 3600)
  | .Weeks => toInt64 (toInt64 t.count * 7)
  | .Months | .Years => toInt32 t.count

/-- The instant that `TimeSpan::addToDateTime` aims at from the instant `base`,
computed on unbounded integers: the result of the platform when no step of its
computation leaves the range of `qint64` or of `QDate`. -/
def TimeSpan.exactResult (t : TimeSpan) (base : Int) : Int :=
  match t.unit with
  | .MilliSeconds => base + t.castCount
  | .Seconds | .Minutes | .Hours => base + t.castCount * 1000
  | .Days | .Weeks => base + t.castCount * msecsPerDay
  | .Months =>
    (dateAddMonths (base / msecsPerDay + epochJulianDay) t.castCount - epochJulianDay) *
      msecsPerDay + base % msecsPerDay
  | .Years =>
    (dateAddYears (base / msecsPerDay + epochJulianDay) t.castCount - epochJulianDay) *
      msecsPerDay + base % msecsPerDay

/-! ## LoopUpdateTask -/

/-- The data members of `LoopUpdateTask`; `repetitionsLeft` is a `qint64`. -/
structure LoopUpdateTask where
  nextPoint : QDateTime
  repetitionsLeft : Int
  deriving DecidableEq, Repr

namespace LoopUpdateTask

/-- Modelled from the spec: `LoopUpdateTask::startDelay()` is a virtual member whose
body is in `updatetask.h`, which is not part of the sources at hand.  The
specification initialises the first due time from the pause interval, so the start
delay is the pause span. -/
def startDelay (pauseSpan : TimeSpan) : TimeSpan := pauseSpan

/-- `LoopUpdateTask::hasTasks`; `repetitions` and `pauseSpan` are the results of the
virtual members `repetitions()` and `pauseSpan()`. -/
def hasTasks (repetitions : Int) (pauseSpan : TimeSpan) (now : Int) (s : LoopUpdateTask) :
    Bool × LoopUpdateTask :=
  let s1 : LoopUpdateTask :=
    if s.nextPoint.isNull then
      { nextPoint := (startDelay pauseSpan).addToDateTime (.valid now),
        repetitionsLeft := repetitions }
    else s
  if s1.nextPoint.gt (.valid now) then
    (s1.repetitionsLeft != 0, s1)
  else
    (false, s1)

/-- `LoopUpdateTask::currentTask`. -/
def currentTask (s : LoopUpdateTask) : QDateTime := s.nextPoint

/-- `LoopUpdateTask::nextTask`. -/
def nextTask (pauseSpan : TimeSpan) (now : Int) (s : LoopUpdateTask) : Bool × LoopUpdateTask :=
  if s.repetitionsLeft > 0 then
    let s1 : LoopUpdateTask := { s with repetitionsLeft := s.repetitionsLeft - 1 }
    if s1.repetitionsLeft > 0 then
      (true, { s1 with nextPoint := pauseSpan.addToDateTime (.valid now) })
    else
      (false, s1)
  else if s.repetitionsLeft < 0 then
    (true, s)
  else
    (false, s)

/-- `LoopUpdateTask::getLeftReps`. -/
def getLeftReps (s : LoopUpdateTask) : Int := s.repetitionsLeft

end LoopUpdateTask

/-! ## BasicLoopUpdateTask -/

/-- `BasicLoopUpdateTask`: the base-class members together with `loopDelta` and
`repCount` (a `qint64`). -/
structure BasicLoopUpdateTask where
  base : LoopUpdateTask
  loopDelta : TimeSpan
  repCount : Int
  deriving DecidableEq, Repr

namespace BasicLoopUpdateTask

/-- `BasicLoopUpdateTask::BasicLoopUpdateTask(TimeSpan, qint64)`.  The base-class
constructor leaves `nextPoint` null; the value it gives `repetitionsLeft` is in
`updatetask.h` and is the parameter `initReps`. -/
def construct (initReps : Int) (loopDelta : TimeSpan) (repeats : Int) : BasicLoopUpdateTask :=
  { base := { nextPoint := .null, repetitionsLeft := initReps },
    loopDelta := loopDelta, repCount := repeats }

/-- `BasicLoopUpdateTask::repetitions`. -/
def repetitions (t : BasicLoopUpdateTask) : Int := t.repCount

/-- `BasicLoopUpdateTask::pauseSpan`. -/
def pauseSpan (t : BasicLoopUpdateTask) : TimeSpan := t.loopDelta

/-- `hasTasks` as inherited from `LoopUpdateTask`. -/
def hasTasks (now : Int) (t : BasicLoopUpdateTask) : Bool × BasicLoopUpdateTask :=
  let r := LoopUpdateTask.hasTasks t.repetitions t.pauseSpan now t.base
  (r.1, { t with base := r.2 })

/-- `currentTask` as inherited from `LoopUpdateTask`. -/
def currentTask (t : BasicLoopUpdateTask) : QDateTime := t.base.currentTask

/-- `nextTask` as inherited from `LoopUpdateTask`. -/
def nextTask (now : Int) (t : BasicLoopUpdateTask) : Bool × BasicLoopUpdateTask :=
  let r := LoopUpdateTask.nextTask t.pauseSpan now t.base
  (r.1, { t with base := r.2 })

end BasicLoopUpdateTask

/-- A run of consecutive `nextTask()` calls on a loop task, one per clock value:
the results in call order and the final object. -/
def BasicLoopUpdateTask.nextTaskRun :
    List Int → BasicLoopUpdateTask → List Bool × BasicLoopUpdateTask
  | [], t => ([], t)
  | now :: clocks, t =>
    let r := BasicLoopUpdateTask.nextTask now t
    let rest := BasicLoopUpdateTask.nextTaskRun clocks r.2
    (r.1 :: rest.1, rest.2)

/-! ## TimePointUpdateTask -/

/-- The data members of `TimePointUpdateTask`. -/
structure TimePointUpdateTask where
  timePoint : QDateTime
  focusPoint : TimeUnit
  nextPoint : QDateTime
  deriving DecidableEq, Repr

namespace TimePointUpdateTask

/-- `TimePointUpdateTask::TimePointUpdateTask(const QDateTime &, TimeSpan::TimeUnit)`. -/
def construct (timePoint : QDateTime) (repeatFocus : TimeUnit) : TimePointUpdateTask :=
  { timePoint := timePoint, focusPoint := repeatFocus, nextPoint := timePoint }

/-- `TimePointUpdateTask::hasTasks`. -/
def hasTasks (now : Int) (t : TimePointUpdateTask) : Bool × TimePointUpdateTask :=
  if t.focusPoint = .MilliSeconds then
    (t.timePoint.gt (.valid now), t)
  else
    (true, t)

/-- `TimePointUpdateTask::currentTask`. -/
def currentTask (t : TimePointUpdateTask) : QDateTime := t.nextPoint

/-- `TimePointUpdateTask::nextTask`. -/
def nextTask (t : TimePointUpdateTask) : Bool × TimePointUpdateTask :=
  match t.focusPoint with
  | .MilliSeconds => (false, t)
  | .Seconds => (true, { t with nextPoint := t.nextPoint.addSecs 1 })
  | .Minutes => (true, { t with nextPoint := t.nextPoint.addSecs 60 })
  | .Hours => (true, { t with nextPoint := t.nextPoint.addSecs 3600 })
  | .Days => (true, { t with nextPoint := t.nextPoint.addDays 1 })
  | .Weeks => (true, { t with nextPoint := t.nextPoint.addDays 7 })
  | .Months => (true, { t with nextPoint := t.nextPoint.addMonths 1 })
  | .Years => (true, { t with nextPoint := t.nextPoint.addYears 1 })

end TimePointUpdateTask

/-! ## The abstract task and the task list -/

/-- The abstract class `UpdateTask`: the virtual members a task list calls on its
elements.  `hasTasks` and `nextTask` read the clock and may change the object. -/
class UpdateTask (τ : Type) where
  hasTasks : Int → τ → Bool × τ
  currentTask : τ → QDateTime
  nextTask : Int → τ → Bool × τ

instance : UpdateTask BasicLoopUpdateTask where
  hasTasks := BasicLoopUpdateTask.hasTasks
  currentTask := BasicLoopUpdateTask.currentTask
  nextTask := BasicLoopUpdateTask.nextTask

instance : UpdateTask TimePointUpdateTask where
  hasTasks := TimePointUpdateTask.hasTasks
  currentTask := TimePointUpdateTask.currentTask
  nextTask := fun _ t => TimePointUpdateTask.nextTask t

/-- An element of a heterogeneous task list: one of the two concrete task classes. -/
inductive AnyTask where
  | loop (t : BasicLoopUpdateTask)
  | point (t : TimePointUpdateTask)
  deriving DecidableEq, Repr

instance : UpdateTask AnyTask where
  hasTasks := fun now t =>
    match t with
    | .loop l => ((BasicLoopUpdateTask.hasTasks now l).1, .loop (BasicLoopUpdateTask.hasTasks now l).2)
    | .point p => ((TimePointUpdateTask.hasTasks now p).1, .point (TimePointUpdateTask.hasTasks now p).2)
  currentTask := fun t =>
    match t with
    | .loop l => l.currentTask
    | .point p => p.currentTask
  nextTask := fun now t =>
    match t with
    | .loop l => ((BasicLoopUpdateTask.nextTask now l).1, .loop (BasicLoopUpdateTask.nextTask now l).2)
    | .point p => (p.nextTask.1, .point p.nextTask.2)

namespace UpdateTaskList

variable {τ : Type} [UpdateTask τ]

/-- The `do ... while(!isEmpty())` loop of `UpdateTaskList::nextTask`, entered with
the list as it stands: the first element is asked `hasTasks()`; it stays when it
answers true and is taken off the list and deleted otherwise. -/
def evict (now : Int) : List τ → Bool × List τ
  | [] => (false, [])
  | t :: rest =>
    let r := UpdateTask.hasTasks now t
    if r.1 then (true, r.2 :: rest) else evict now rest

/-- `UpdateTaskList::nextTask`. -/
def nextTask (now : Int) : List τ → Bool × List τ
  | [] => (false, [])
  | t :: rest =>
    let r := UpdateTask.nextTask now t
    if r.1 then (true, r.2 :: rest) else evict now (r.2 :: rest)

/-- `UpdateTaskList::hasTasks`. -/
def hasTasks (now : Int) : List τ → Bool × List τ
  | [] => (false, [])
  | t :: rest =>
    let r := UpdateTask.hasTasks now t
    if r.1 then (true, r.2 :: rest) else nextTask now (r.2 :: rest)

/-- `UpdateTaskList::currentTask`. -/
def currentTask : List τ → QDateTime
  | [] => .null
  | t :: _ => UpdateTask.currentTask t

end UpdateTaskList

/-! ## QDataStream -/

/-- A `QByteArray`: a sequence of bytes, each below 256. -/
abbrev QByteArray := List Nat

/-- A `QString`: a sequence of UTF-16 code units, each below 65536. -/
abbrev QString := List Nat

namespace QDataStream

/-- Big-endian value of a sequence of bytes. -/
def beValue : List Nat → Nat
  | [] => 0
  | b :: bs => (b % 256) * 256 ^ bs.length + beValue bs

/-- The `n` bytes of the big-endian representation of `v`. -/
def beBytes : Nat → Nat → List Nat
  | 0, _ => []
  | n + 1, v => (v / 256 ^ n) % 256 :: beBytes n v

/-- Reading a fixed-width integer of `n` bytes from a read-only stream over the
bytes `s`: the unsigned value read and the bytes left.  A read that finds fewer
than `n` bytes yields 0 and leaves the stream at its end. -/
def readUInt (n : Nat) (s : QByteArray) : Nat × QByteArray :=
  if n ≤ s.length then (beValue (s.take n), s.drop n) else (0, [])

/-- `operator>>(qint32 &)`, also used for `int`. -/
def readInt32 (s : QByteArray) : Int × QByteArray :=
  (toInt32 (readUInt 4 s).1, (readUInt 4 s).2)

/-- `operator>>(quint32 &)`. -/
def readUInt32 (s : QByteArray) : Nat × QByteArray := readUInt 4 s

/-- `operator>>(qint64 &)`. -/
def readInt64 (s : QByteArray) : Int × QByteArray :=
  (toInt64 (readUInt 8 s).1, (readUInt 8 s).2)

/-- `operator>>(quint64 &)`. -/
def readUInt64 (s : QByteArray) : Nat × QByteArray := readUInt 8 s

/-- `operator<<(qint32)`, also used for `int`. -/
def writeInt32 (v : Int) : QByteArray := beBytes 4 (v % 2 ^ 32).toNat

/-- `operator<<(quint32)`. -/
def writeUInt32 (v : Nat) : QByteArray := beBytes 4 (v % 2 ^ 32)

/-- `operator<<(qint64)`. -/
def writeInt64 (v : Int) : QByteArray := beBytes 8 (v % 2 ^ 64).toNat

/-- `operator<<(quint64)`. -/
def writeUInt64 (v : Nat) : QByteArray := beBytes 8 (v % 2 ^ 64)

/-- `QDataStream::readRawData(buf, len)` into a buffer whose content before the call
is `buf` (of length `len`): the bytes found are copied to the front of the buffer,
the rest of the buffer keeps its content. -/
def readRawData (buf : QByteArray) (len : Nat) (s : QByteArray) : QByteArray × QByteArray :=
  (s.take len ++ buf.drop (s.take len).length, s.drop len)

/-- `QDataStream::writeRawData`. -/
def writeRawData (data : QByteArray) : QByteArray := data

/-- The UTF-16 code units held big-endian in a sequence of bytes. -/
def codeUnits : List Nat → List Nat
  | hi :: lo :: rest => ((hi % 256) * 256 + lo % 256) :: codeUnits rest
  | _ => []

/-- The big-endian bytes of a sequence of UTF-16 code units. -/
def codeUnitBytes : List Nat → List Nat
  | [] => []
  | u :: rest => ((u / 256) % 256) :: (u % 256) :: codeUnitBytes rest

/-- `operator>>(QString &)`: a 32-bit byte count, then that many bytes of UTF-16.  The
count `0xffffffff` marks a null string; an odd count is corrupt data and a count
larger than what is left reads past the end, both give the empty string. -/
def readQString (s : QByteArray) : QString × QByteArray :=
  let r := readUInt32 s
  let bytes := r.1
  if bytes = 0xffffffff then ([], r.2)
  else if bytes > 0 then
    if bytes % 2 = 1 then ([], r.2)
    else if bytes ≤ r.2.length then (codeUnits (r.2.take bytes), r.2.drop bytes)
    else ([], [])
  else ([], r.2)

/-- `operator<<(const QString &)` for a non-null string. -/
def writeQString (str : QString) : QByteArray :=
  writeUInt32 (2 * str.length) ++ codeUnitBytes str

end QDataStream

/-! ## UpdateTaskList: construction from bytes -/

namespace UpdateTaskList

/-- The body of the `for` loop of `UpdateTaskList::UpdateTaskList(const QByteArray &)`,
run for the `n` iterations that remain, `i` being the loop counter.  `buildTask` is
`UpdateScheduler::buildTask` (a null pointer is `none`); `uninit i` is the content
of the uninitialised buffer `taskData` of iteration `i` before it is read into. -/
def readEntries {τ : Type} (buildTask : QString → QByteArray → Option τ)
    (uninit : Nat → Nat → Nat) : Nat → Nat → QByteArray → List τ
  | 0, _, _ => []
  | n + 1, i, s =>
    let tInfo := QDataStream.readQString s
    let taskSize := QDataStream.readInt32 tInfo.2
    if taskSize.1 > 0 then
      let buf := (List.range taskSize.1.toNat).map (fun j => uninit i j % 256)
      let taskData := QDataStream.readRawData buf taskSize.1.toNat taskSize.2
      match buildTask tInfo.1 taskData.1 with
      | some task => task :: readEntries buildTask uninit n (i + 1) taskData.2
      | none => readEntries buildTask uninit n (i + 1) taskData.2
    else
      readEntries buildTask uninit n (i + 1) taskSize.2

/-- `UpdateTaskList::UpdateTaskList(const QByteArray &)`. -/
def fromBytes {τ : Type} (buildTask : QString → QByteArray → Option τ)
    (uninit : Nat → Nat → Nat) (data : QByteArray) : List τ :=
  let size := QDataStream.readInt32 data
  readEntries buildTask uninit size.1.toNat 0 size.2

/-- The bytes of one entry of a task-list buffer: the tag, the payload length and
the payload. -/
def encodeEntry (e : QString × QByteArray) : QByteArray :=
  QDataStream.writeQString e.1 ++ QDataStream.writeInt32 e.2.length ++ e.2

/-- A buffer that declares `count` entries and holds the entries `entries`, followed
by nothing. -/
def encodeDeclared (count : Nat) (entries : List (QString × QByteArray)) : QByteArray :=
  QDataStream.writeInt32 count ++ (entries.map encodeEntry).flatten

/-- The bytes of a well-formed task-list buffer: the declared count, then that many
entries. -/
def encodeEntries (entries : List (QString × QByteArray)) : QByteArray :=
  encodeDeclared entries.length entries

/-- A tag and payload that fit the wire format: code units below 65536, bytes below
256, and lengths within the 32-bit fields. -/
def EntryOk (e : QString × QByteArray) : Prop :=
  (∀ u ∈ e.1, u < 65536) ∧ 2 * e.1.length < 2 ^ 32 - 1 ∧ e.2.length < 2 ^ 31

end UpdateTaskList

/-! ## Persistence of the concrete tasks -/

/-- The cast `(TimeSpan::TimeUnit)tmp` of a stored `quint64`: the enumerator with that
numeric value.  A value that belongs to no enumerator has no counterpart in
`TimeUnit` and gives `none`. -/
def TimeUnit.ofValue (unitValue : TimeUnit → Nat) (v : Nat) : Option TimeUnit :=
  if unitValue .MilliSeconds = v then some .MilliSeconds
  else if unitValue .Seconds = v then some .Seconds
  else if unitValue .Minutes = v then some .Minutes
  else if unitValue .Hours = v then some .Hours
  else if unitValue .Days = v then some .Days
  else if unitValue .Weeks = v then some .Weeks
  else if unitValue .Months = v then some .Months
  else if unitValue .Years = v then some .Years
  else none

namespace QDataStream

/-- `operator<<(QDataStream &, const TimeSpan &)`. -/
def writeTimeSpan (unitValue : TimeUnit → Nat) (t : TimeSpan) : QByteArray :=
  writeUInt64 t.count ++ writeUInt64 (unitValue t.unit)

/-- `operator>>(QDataStream &, TimeSpan &)`: the count, the `quint64` that is cast to
the unit, and the bytes left. -/
def readTimeSpan (s : QByteArray) : Nat × Nat × QByteArray :=
  let count := readUInt64 s
  let tmp := readUInt64 count.2
  (count.1, tmp.1, tmp.2)

/-- The Julian day that marks a null `QDate` on the wire. -/
def nullJd : Int := -2 ^ 63

/-- `operator<<(QDataStream &, const QDateTime &)` of the platform: the Julian day
(`qint64`), the milliseconds since midnight (`quint32`) and the time spec (`qint8`,
1 for UTC); a null value is the null date, the null time `0xffffffff` and the spec
0; the invalid value is the null date with a valid time. -/
def writeQDateTime : QDateTime → QByteArray
  | .null => writeInt64 nullJd ++ writeUInt32 0xffffffff ++ [0]
  | .invalid => writeInt64 nullJd ++ writeUInt32 0 ++ [1]
  | .valid t =>
    writeInt64 (t / msecsPerDay + epochJulianDay) ++ writeUInt32 (t % msecsPerDay).toNat ++ [1]

/-- `operator>>(QDataStream &, QDateTime &)` of the platform.  An invalid time with
a valid date gives midnight of that date; a Julian day outside the range of `QDate`
gives the invalid value when the time is valid and the null value when it is not. -/
def readQDateTime (s : QByteArray) : QDateTime × QByteArray :=
  let jd := readInt64 s
  let mds := readUInt32 jd.2
  let spec := readUInt 1 mds.2
  if minJd ≤ jd.1 ∧ jd.1 ≤ maxJd then
    if mds.1 < 86400000 then
      (.valid ((jd.1 - epochJulianDay) * msecsPerDay + mds.1), spec.2)
    else
      (.valid ((jd.1 - epochJulianDay) * msecsPerDay), spec.2)
  else if mds.1 < 86400000 then
    (.invalid, spec.2)
  else
    (.null, spec.2)

end QDataStream

/-! ## Storing tasks and building them from bytes

The byte constructors read the unit of a `TimeSpan` and the focus unit of a
`TimePointUpdateTask` as a `quint64` and cast it to `TimeSpan::TimeUnit`; the object
is built whether or not the number is the value of an enumerator. -/

/-- `BasicLoopUpdateTask::store`. -/
def BasicLoopUpdateTask.store (unitValue : TimeUnit → Nat) (t : BasicLoopUpdateTask) :
    QByteArray :=
  QDataStream.writeTimeSpan unitValue t.loopDelta ++ QDataStream.writeInt64 t.base.getLeftReps

/-- A `BasicLoopUpdateTask` with the unit of `loopDelta` held as the number it is in
memory. -/
structure BasicLoopUpdateTask.Raw where
  base : LoopUpdateTask
  count : Nat
  unit : Nat
  repCount : Int
  deriving DecidableEq, Repr

/-- `BasicLoopUpdateTask::BasicLoopUpdateTask(const QByteArray &)`, for any bytes.  The
base-class constructor leaves `nextPoint` null and gives `repetitionsLeft` the value
`initReps` (as in `construct`). -/
def BasicLoopUpdateTask.Raw.fromBytes (initReps : Int) (data : QByteArray) :
    BasicLoopUpdateTask.Raw :=
  let span := QDataStream.readTimeSpan data
  let reps := QDataStream.readInt64 span.2.2
  { base := { nextPoint := .null, repetitionsLeft := initReps },
    count := span.1, unit := span.2.1, repCount := reps.1 }

/-- The object as a task whose pause span has an enumerator as unit, when `unit` is
the value of one. -/
def BasicLoopUpdateTask.Raw.task (unitValue : TimeUnit → Nat) (r : BasicLoopUpdateTask.Raw) :
    Option BasicLoopUpdateTask :=
  (TimeUnit.ofValue unitValue r.unit).map (fun unit =>
    { base := r.base, loopDelta := { count := r.count, unit := unit }, repCount := r.repCount })

/-- `BasicLoopUpdateTask::BasicLoopUpdateTask(const QByteArray &)`, as a task whose
pause span has an enumerator as unit: the enumerator view of the object that the
constructor builds.  The result is `none` when the stored unit is not the value of an
enumerator, so that the object is none of the tasks that `BasicLoopUpdateTask`
describes. -/
def BasicLoopUpdateTask.fromBytes (unitValue : TimeUnit → Nat) (initReps : Int)
    (data : QByteArray) : Option BasicLoopUpdateTask :=
  (BasicLoopUpdateTask.Raw.fromBytes initReps data).task unitValue

/-- `TimePointUpdateTask::store`. -/
def TimePointUpdateTask.store (unitValue : TimeUnit → Nat) (t : TimePointUpdateTask) :
    QByteArray :=
  QDataStream.writeQDateTime t.timePoint ++ QDataStream.writeUInt64 (unitValue t.focusPoint)

/-- A `TimePointUpdateTask` with `focusPoint` held as the number it is in memory. -/
structure TimePointUpdateTask.Raw where
  timePoint : QDateTime
  focusPoint : Nat
  nextPoint : QDateTime
  deriving DecidableEq, Repr

/-- `TimePointUpdateTask::TimePointUpdateTask(const QByteArray &)`, for any bytes: the
cast `(TimeSpan::TimeUnit)tmp` keeps the number. -/
def TimePointUpdateTask.Raw.fromBytes (data : QByteArray) : TimePointUpdateTask.Raw :=
  let tp := QDataStream.readQDateTime data
  let tmp := QDataStream.readUInt64 tp.2
  { timePoint := tp.1, focusPoint := tmp.1, nextPoint := tp.1 }

/-- The object as a task with an enumerator as focus unit, when `focusPoint` is the
value of one. -/
def TimePointUpdateTask.Raw.task (unitValue : TimeUnit → Nat) (r : TimePointUpdateTask.Raw) :
    Option TimePointUpdateTask :=
  (TimeUnit.ofValue unitValue r.focusPoint).map (fun unit =>
    { timePoint := r.timePoint, focusPoint := unit, nextPoint := r.nextPoint })

/-- `TimePointUpdateTask::TimePointUpdateTask(const QByteArray &)`, as a task with an
enumerator as focus unit: the enumerator view of the object that the constructor
builds.  The result is `none` when the stored unit is not the value of an enumerator,
so that the object is none of the tasks that `TimePointUpdateTask` describes. -/
def TimePointUpdateTask.fromBytes (unitValue : TimeUnit → Nat) (data : QByteArray) :
    Option TimePointUpdateTask :=
  (TimePointUpdateTask.Raw.fromBytes data).task unitValue

/-- The `std::type_index` values of the concrete task classes. -/
inductive TypeIndex where
  | BasicLoopUpdateTask
  | TimePointUpdateTask
  | UpdateTaskList
  deriving DecidableEq, Repr

/-- The virtual `typeIndex()` of a list element. -/
def AnyTask.typeIndex : AnyTask → TypeIndex
  | .loop _ => .BasicLoopUpdateTask
  | .point _ => .TimePointUpdateTask

/-- The virtual `store()` of a list element. -/
def AnyTask.store (unitValue : TimeUnit → Nat) : AnyTask → QByteArray
  | .loop l => l.store unitValue
  | .point p => p.store unitValue

/-- `UpdateTaskList::store`; `tag` is `UpdateScheduler::tIndexToInfo(task->typeIndex())`
and `storeTask` the virtual `task->store()`. -/
def UpdateTaskList.store {τ : Type} (tag : τ → QString) (storeTask : τ → QByteArray)
    (l : List τ) : QByteArray :=
  QDataStream.writeInt32 l.length ++
    (l.map (fun task =>
      let taskData := storeTask task
      QDataStream.writeQString (tag task) ++ QDataStream.writeInt32 taskData.length ++
        (if taskData.length > 0 then QDataStream.writeRawData taskData else []))).flatten

/-- Modelled from the spec: `UpdateScheduler::buildTask` is defined in
`updatescheduler.cpp`, which is not part of the sources at hand.  Per the
specification it is the inverse of the tag lookup `tIndexToInfo`: for the tag of a
registered class it constructs that class from the payload, and it returns null for
every other tag and for a payload it cannot use. -/
def UpdateScheduler.buildTask (tIndexToInfo : TypeIndex → QString) (unitValue : TimeUnit → Nat)
    (initReps : Int) (tag : QString) (data : QByteArray) : Option AnyTask :=
  if tag = tIndexToInfo .BasicLoopUpdateTask then
    (BasicLoopUpdateTask.fromBytes unitValue initReps data).map AnyTask.loop
  else if tag = tIndexToInfo .TimePointUpdateTask then
    (TimePointUpdateTask.fromBytes unitValue data).map AnyTask.point
  else
    none

/-- Modelled from the spec: `UpdateScheduler::tIndexToInfo` is defined in
`updatescheduler.cpp`, which is not part of the sources at hand.  The specification
asks for a stable string per concrete class; the class names (as UTF-16 code units)
are used. -/
def UpdateScheduler.tIndexToInfo : TypeIndex → QString
  | .BasicLoopUpdateTask => "BasicLoopUpdateTask".toList.map Char.toNat
  | .TimePointUpdateTask => "TimePointUpdateTask".toList.map Char.toNat
  | .UpdateTaskList => "UpdateTaskList".toList.map Char.toNat

/-- Storing a task list and reconstructing it from the bytes through the registry:
`UpdateTaskList(list.store())`.  `months` and `years` are the numeric values of those
two enumerators, `initReps` the initial `repetitionsLeft` of a loop task, `uninit`
the prior content of the payload buffers. -/
def UpdateTaskList.storeAndReload (months years : Nat) (initReps : Int)
    (uninit : Nat → Nat → Nat) (l : List AnyTask) : List AnyTask :=
  UpdateTaskList.fromBytes
    (UpdateScheduler.buildTask UpdateScheduler.tIndexToInfo (TimeUnit.value months years)
      initReps) uninit
    (UpdateTaskList.store (fun t => UpdateScheduler.tIndexToInfo t.typeIndex)
      (AnyTask.store (TimeUnit.value months years)) l)

/-! ## Sequences of calls -/

/-- A call of one of the two mutating members of a `LoopUpdateTask`, with the clock
value it reads. -/
inductive LoopUpdateTask.Call where
  | hasTasks (now : Int)
  | nextTask (now : Int)
  deriving DecidableEq, Repr

/-- The result of one call on a loop task and the object it leaves. -/
def LoopUpdateTask.call (repetitions : Int) (pauseSpan : TimeSpan) :
    LoopUpdateTask.Call → LoopUpdateTask → Bool × LoopUpdateTask
  | .hasTasks now, s => LoopUpdateTask.hasTasks repetitions pauseSpan now s
  | .nextTask now, s => LoopUpdateTask.nextTask pauseSpan now s

/-- A sequence of calls on a loop task: the results in call order and the final
object. -/
def LoopUpdateTask.calls (repetitions : Int) (pauseSpan : TimeSpan) :
    List LoopUpdateTask.Call → LoopUpdateTask → List Bool × LoopUpdateTask
  | [], s => ([], s)
  | c :: cs, s =>
    let r := LoopUpdateTask.call repetitions pauseSpan c s
    let rest := LoopUpdateTask.calls repetitions pauseSpan cs r.2
    (r.1 :: rest.1, rest.2)

/-- A call of one of the members of a `TimePointUpdateTask`. -/
inductive TimePointUpdateTask.Call where
  | hasTasks (now : Int)
  | currentTask
  | nextTask
  | store
  deriving DecidableEq, Repr

/-- The object a call leaves; `currentTask()` and `store()` are `const` members. -/
def TimePointUpdateTask.call : TimePointUpdateTask.Call → TimePointUpdateTask → TimePointUpdateTask
  | .hasTasks now, t => (TimePointUpdateTask.hasTasks now t).2
  | .currentTask, t => t
  | .nextTask, t => (TimePointUpdateTask.nextTask t).2
  | .store, t => t

/-- The object a sequence of calls leaves. -/
def TimePointUpdateTask.calls : List TimePointUpdateTask.Call → TimePointUpdateTask →
    TimePointUpdateTask
  | [], t => t
  | c :: cs, t => TimePointUpdateTask.calls cs (TimePointUpdateTask.call c t)

/-- The object left by `k` consecutive `nextTask()` calls on a time-point task. -/
def TimePointUpdateTask.nextTasks : Nat → TimePointUpdateTask → TimePointUpdateTask
  | 0, t => t
  | k + 1, t => TimePointUpdateTask.nextTasks k (TimePointUpdateTask.nextTask t).2

/-- The enumerators of `TimeSpan::TimeUnit` have pairwise different values that fit a
`quint64`: the condition on the values of `Months` and `Years` under which a stored
unit is read back as the unit it was. -/
def TimeUnit.ValuesOk (months years : Nat) : Prop :=
  months < 2 ^ 64 ∧ years < 2 ^ 64 ∧ months ≠ years ∧
  months ∉ [1, 1000, 60000, 3600000, 86400000, 604800000] ∧
  years ∉ [1, 1000, 60000, 3600000, 86400000, 604800000]

/-- A task object together with its address: the list holds pointers, and a call on
the object changes its state and not its address. -/
instance {τ : Type} [UpdateTask τ] : UpdateTask (Nat × τ) where
  hasTasks := fun now p => ((UpdateTask.hasTasks now p.2).1, (p.1, (UpdateTask.hasTasks now p.2).2))
  currentTask := fun p => UpdateTask.currentTask p.2
  nextTask := fun now p => ((UpdateTask.nextTask now p.2).1, (p.1, (UpdateTask.nextTask now p.2).2))

/-- The pause span of an interval task moves the clock value `now` strictly forward:
the platform's result of `pauseSpan().addToDateTime(NOW)` is later than `NOW`.  A
time-point task has no pause span. -/
def AnyTask.AdvancesAt (now : Int) : AnyTask → Prop
  | .loop l => (l.loopDelta.addToDateTime (.valid now)).gt (.valid now) = true
  | .point _ => True

/-- The object a call leaves on a task built from bytes; `none` when the call has no
defined behaviour.  With an enumerator as focus unit the members are those of
`TimePointUpdateTask`.  With any other number `hasTasks()` finds `focusPoint`
different from `MilliSeconds` and returns true, `currentTask()` and `store()` are
`const`, and the `switch` of `nextTask()` reaches `Q_UNREACHABLE()`. -/
def TimePointUpdateTask.Raw.call (unitValue : TimeUnit → Nat) (c : TimePointUpdateTask.Call)
    (r : TimePointUpdateTask.Raw) : Option TimePointUpdateTask.Raw :=
  match r.task unitValue with
  | some t =>
    some { timePoint := (TimePointUpdateTask.call c t).timePoint, focusPoint := r.focusPoint,
           nextPoint := (TimePointUpdateTask.call c t).nextPoint }
  | none =>
    match c with
    | .nextTask => none
    | _ => some r

/-- The object a sequence of calls leaves on a task built from bytes; `none` when one
of the calls has no defined behaviour. -/
def TimePointUpdateTask.Raw.calls (unitValue : TimeUnit → Nat) :
    List TimePointUpdateTask.Call → TimePointUpdateTask.Raw → Option TimePointUpdateTask.Raw
  | [], r => some r
  | c :: cs, r =>
    (TimePointUpdateTask.Raw.call unitValue c r).bind (TimePointUpdateTask.Raw.calls unitValue cs)

/-- The next `nextTask()` call stays within the range of the platform: the focus unit
is `MilliSeconds` (nothing is added), or `nextPoint` is not an instant, or it is an
instant with a `qint64` millisecond count and the exact sum of it and one focus unit
does not exceed that range. -/
def TimePointUpdateTask.fits (t : TimePointUpdateTask) : Bool :=
  match t.nextPoint with
  | .valid ms =>
    t.focusPoint = .MilliSeconds ||
      decide (-2 ^ 63 ≤ ms ∧ (TimeSpan.mk 1 t.focusPoint).exactResult ms < 2 ^ 63)
  | _ => true

/-- Every `nextTask()` call of a sequence of calls stays within the range of the
platform. -/
def TimePointUpdateTask.callsFit : List TimePointUpdateTask.Call → TimePointUpdateTask → Bool
  | [], _ => true
  | c :: cs, t =>
    (!decide (c = .nextTask) || t.fits) &&
      TimePointUpdateTask.callsFit cs (TimePointUpdateTask.call c t)

/-- Every `nextTask()` call of a sequence of calls on a task built from bytes stays
within the range of the platform. -/
def TimePointUpdateTask.Raw.callsFit (unitValue : TimeUnit → Nat)
    (cs : List TimePointUpdateTask.Call) (r : TimePointUpdateTask.Raw) : Bool :=
  match r.task unitValue with
  | some t => TimePointUpdateTask.callsFit cs t
  | none => true

/-! # Theorems -/

/-- Second component of a conditional whose branches share it. -/
theorem ite_pair_snd {α β : Type} (c : Prop) [Decidable c] (a b : α) (s : β) :
    (if c then (a, s) else (b, s)).2 = s := by
  split <;> rfl

/-- The object left by `LoopUpdateTask::hasTasks`. -/
theorem LoopUpdateTask.hasTasks_snd (r : Int) (p : TimeSpan) (now : Int) (s : LoopUpdateTask) :
    (LoopUpdateTask.hasTasks r p now s).2 =
      if s.nextPoint.isNull then
        { nextPoint := (LoopUpdateTask.startDelay p).addToDateTime (.valid now),
          repetitionsLeft := r }
      else s := by
  unfold LoopUpdateTask.hasTasks
  dsimp only
  exact ite_pair_snd _ _ _ _

/-- The answer of `LoopUpdateTask::hasTasks` in terms of the object it leaves. -/
theorem LoopUpdateTask.hasTasks_fst (r : Int) (p : TimeSpan) (now : Int) (s : LoopUpdateTask) :
    (LoopUpdateTask.hasTasks r p now s).1 =
      ((LoopUpdateTask.hasTasks r p now s).2.nextPoint.gt (.valid now) &&
        (LoopUpdateTask.hasTasks r p now s).2.repetitionsLeft != 0) := by
  rw [LoopUpdateTask.hasTasks_snd]
  unfold LoopUpdateTask.hasTasks
  dsimp only
  split <;> split <;> simp_all

/-- One `nextTask()` call on a loop task with more than one repetition left. -/
theorem BasicLoopUpdateTask.nextTask_of_many (c : Int) (t : BasicLoopUpdateTask)
    (h : 1 < t.base.repetitionsLeft) :
    (BasicLoopUpdateTask.nextTask c t).1 = true ∧
    (BasicLoopUpdateTask.nextTask c t).2.base.repetitionsLeft = t.base.repetitionsLeft - 1 := by
  have h0 : t.base.repetitionsLeft > 0 := by omega
  have h1 : t.base.repetitionsLeft - 1 > 0 := by omega
  simp [BasicLoopUpdateTask.nextTask, LoopUpdateTask.nextTask, h0, h1]

/-- One `nextTask()` call on a loop task with exactly one repetition left. -/
theorem BasicLoopUpdateTask.nextTask_of_one (c : Int) (t : BasicLoopUpdateTask)
    (h : t.base.repetitionsLeft = 1) :
    (BasicLoopUpdateTask.nextTask c t).1 = false ∧
    (BasicLoopUpdateTask.nextTask c t).2.base.repetitionsLeft = 0 := by
  simp [BasicLoopUpdateTask.nextTask, LoopUpdateTask.nextTask, h]

/-- A loop task with `k + 1` repetitions left answers `k` times true and then false. -/
theorem nextTaskRun_countdown (k : Nat) :
    ∀ (clocks : List Int) (t : BasicLoopUpdateTask),
      clocks.length = k + 1 → t.base.repetitionsLeft = (k : Int) + 1 →
      (BasicLoopUpdateTask.nextTaskRun clocks t).1 = List.replicate k true ++ [false] ∧
      (BasicLoopUpdateTask.nextTaskRun clocks t).2.base.repetitionsLeft = 0 := by
  induction k with
  | zero =>
    intro clocks t hlen hrep
    match clocks, hlen with
    | [c], _ =>
      have h := BasicLoopUpdateTask.nextTask_of_one c t (by simpa using hrep)
      simp [BasicLoopUpdateTask.nextTaskRun, h.1, h.2]
  | succ k ih =>
    intro clocks t hlen hrep
    match clocks, hlen with
    | c :: cs, hlen =>
      have hlen1 : cs.length = k + 1 := by simpa using hlen
      have hs := BasicLoopUpdateTask.nextTask_of_many c t (by omega)
      have h := ih cs (BasicLoopUpdateTask.nextTask c t).2 hlen1 (by rw [hs.2, hrep]; push_cast; ring)
      simp only [BasicLoopUpdateTask.nextTaskRun, hs.1, h.1, h.2, List.replicate_succ,
        List.cons_append, and_self]

/-- C1: an interval task configured with `n ≥ 1` repetitions, initialised by its
first `hasTasks()` call (which sets `repetitionsLeft` to `n`), answers the next `n`
calls of `nextTask()`, whatever the clock values, with `n - 1` times true followed by
false, and ends with `repetitionsLeft = 0`. -/
theorem nextTask_true_exactly_n_minus_one (t : BasicLoopUpdateTask) (n : Nat) (hn : 1 ≤ n)
    (hnull : t.base.nextPoint = .null) (hrep : t.repCount = (n : Int))
    (now0 : Int) (clocks : List Int) (hlen : clocks.length = n) :
    ((BasicLoopUpdateTask.hasTasks now0 t).2.base.repetitionsLeft = (n : Int)) ∧
    (BasicLoopUpdateTask.nextTaskRun clocks (BasicLoopUpdateTask.hasTasks now0 t).2).1
      = List.replicate (n - 1) true ++ [false] ∧
    (BasicLoopUpdateTask.nextTaskRun clocks
      (BasicLoopUpdateTask.hasTasks now0 t).2).2.base.repetitionsLeft = 0 := by
  have hinit : (BasicLoopUpdateTask.hasTasks now0 t).2.base.repetitionsLeft = (n : Int) := by
    simp [BasicLoopUpdateTask.hasTasks, LoopUpdateTask.hasTasks_snd, hnull, QDateTime.isNull,
      BasicLoopUpdateTask.repetitions, hrep]
  obtain ⟨k, rfl⟩ : ∃ k, n = k + 1 := ⟨n - 1, by omega⟩
  refine ⟨hinit, ?_⟩
  have h := nextTaskRun_countdown k clocks (BasicLoopUpdateTask.hasTasks now0 t).2 hlen
    (by rw [hinit]; push_cast; ring)
  simpa using h

/-- Witness for C1 with `n = 3`: two calls answer true, the third false. -/
theorem nextTask_true_exactly_n_minus_one_witness :
    (BasicLoopUpdateTask.nextTaskRun [5, 7, 9]
      (BasicLoopUpdateTask.hasTasks 0 (BasicLoopUpdateTask.construct 0 ⟨10, .Seconds⟩ 3)).2).1
      = [true, true, false] :=
  (nextTask_true_exactly_n_minus_one (BasicLoopUpdateTask.construct 0 ⟨10, .Seconds⟩ 3) 3 (by decide)
    rfl rfl 0 [5, 7, 9] rfl).2.1

/-- C2: on a loop task whose `repetitionsLeft` is `-1`, `nextTask()` returns true and
leaves the object (so also `repetitionsLeft = -1`) unchanged; hence any number of
consecutive calls all return true. -/
theorem nextTask_infinite (pauseSpan : TimeSpan) (s : LoopUpdateTask)
    (hinf : s.repetitionsLeft = -1) :
    (∀ now : Int, LoopUpdateTask.nextTask pauseSpan now s = (true, s)) ∧
    (∀ (t : BasicLoopUpdateTask), t.base = s → ∀ clocks : List Int,
      BasicLoopUpdateTask.nextTaskRun clocks t = (List.replicate clocks.length true, t)) := by
  have h1 : ∀ now : Int, LoopUpdateTask.nextTask pauseSpan now s = (true, s) := by
    intro now
    simp [LoopUpdateTask.nextTask, hinf]
  refine ⟨h1, ?_⟩
  intro t ht clocks
  induction clocks with
  | nil => rfl
  | cons c cs ih =>
    have hstep : BasicLoopUpdateTask.nextTask c t = (true, t) := by
      subst ht
      simp [BasicLoopUpdateTask.nextTask, LoopUpdateTask.nextTask, hinf]
    simp [BasicLoopUpdateTask.nextTaskRun, hstep, ih, List.replicate_succ]

/-- Witness for C2: 100 consecutive calls on an infinite task. -/
theorem nextTask_infinite_witness :
    BasicLoopUpdateTask.nextTaskRun (List.replicate 100 0)
        (BasicLoopUpdateTask.construct (-1) ⟨10, .Seconds⟩ (-1))
      = (List.replicate (List.replicate 100 (0 : Int)).length true,
          BasicLoopUpdateTask.construct (-1) ⟨10, .Seconds⟩ (-1)) :=
  (nextTask_infinite ⟨10, .Seconds⟩ ⟨.null, -1⟩ rfl).2
    (BasicLoopUpdateTask.construct (-1) ⟨10, .Seconds⟩ (-1)) rfl (List.replicate 100 0)

/-- `operator>` between two instants is the strict order of their millisecond values. -/
theorem QDateTime.gt_valid (a b : Int) :
    (QDateTime.valid a).gt (QDateTime.valid b) = true ↔ b < a := by
  simp [QDateTime.gt, QDateTime.lt]

/-- C3: `LoopUpdateTask::hasTasks()` at clock value `now`.  With `nextPoint` unset it
sets `nextPoint = pauseSpan().addToDateTime(now)` and `repetitionsLeft =
repetitions()`; with `nextPoint` set it changes neither member; it returns true
exactly when the resulting `nextPoint` is strictly later than `now` and
`repetitionsLeft` is not zero, so a due time equal to or earlier than `now` gives
false. -/
theorem LoopUpdateTask.loop_hasTasks_spec (repetitions : Int) (pauseSpan : TimeSpan) (now : Int)
    (s : LoopUpdateTask) :
    (s.nextPoint.isNull = true →
      (LoopUpdateTask.hasTasks repetitions pauseSpan now s).2 =
        { nextPoint := pauseSpan.addToDateTime (.valid now), repetitionsLeft := repetitions }) ∧
    (s.nextPoint.isNull = false →
      (LoopUpdateTask.hasTasks repetitions pauseSpan now s).2 = s) ∧
    ((LoopUpdateTask.hasTasks repetitions pauseSpan now s).1 = true ↔
      ((LoopUpdateTask.hasTasks repetitions pauseSpan now s).2.nextPoint.gt (.valid now) = true ∧
        (LoopUpdateTask.hasTasks repetitions pauseSpan now s).2.repetitionsLeft ≠ 0)) ∧
    (∀ due : Int, (LoopUpdateTask.hasTasks repetitions pauseSpan now s).2.nextPoint = .valid due →
      ((LoopUpdateTask.hasTasks repetitions pauseSpan now s).1 = true ↔
        (now < due ∧
          (LoopUpdateTask.hasTasks repetitions pauseSpan now s).2.repetitionsLeft ≠ 0))) ∧
    (∀ due : Int, (LoopUpdateTask.hasTasks repetitions pauseSpan now s).2.nextPoint = .valid due →
      due ≤ now → (LoopUpdateTask.hasTasks repetitions pauseSpan now s).1 = false) := by
  have hfst := LoopUpdateTask.hasTasks_fst repetitions pauseSpan now s
  have hsnd := LoopUpdateTask.hasTasks_snd repetitions pauseSpan now s
  refine ⟨?_, ?_, ?_, ?_, ?_⟩
  · intro h
    rw [hsnd, if_pos h]
    rfl
  · intro h
    rw [hsnd, if_neg (by simp [h])]
  · rw [hfst]
    simp
  · intro due hdue
    rw [hfst, hdue]
    simp [QDateTime.gt, QDateTime.lt]
  · intro due hdue hle
    rw [hfst, hdue]
    have : ¬ now < due := by omega
    simp [QDateTime.gt, QDateTime.lt, this]

/-- Witness for C3: the first call on a fresh task with a 10 s pause at clock 0. -/
theorem LoopUpdateTask.loop_hasTasks_spec_witness :
    (LoopUpdateTask.hasTasks 3 ⟨10, .Seconds⟩ 0 ⟨.null, 0⟩).2 =
        { nextPoint := .valid 10000, repetitionsLeft := 3 } ∧
    (LoopUpdateTask.hasTasks 3 ⟨10, .Seconds⟩ 10000 ⟨.valid 10000, 3⟩).1 = false :=
  ⟨(LoopUpdateTask.loop_hasTasks_spec 3 ⟨10, .Seconds⟩ 0 ⟨.null, 0⟩).1 rfl,
   (LoopUpdateTask.loop_hasTasks_spec 3 ⟨10, .Seconds⟩ 10000 ⟨.valid 10000, 3⟩).2.2.2.2 10000 rfl
     (by decide)⟩

/-- C10: `TimePointUpdateTask::hasTasks()` at clock value `now` returns
`timePoint > now` when the focus unit is `MilliSeconds` (whatever `nextPoint` is) and
true for every other focus unit, and leaves the object unchanged; a `MilliSeconds`
task whose `timePoint` is not later than `now` has `hasTasks()` and `nextTask()`
both false. -/
theorem TimePointUpdateTask.timePoint_hasTasks_spec (now : Int) (t : TimePointUpdateTask) :
    (t.focusPoint = .MilliSeconds →
      (TimePointUpdateTask.hasTasks now t).1 = t.timePoint.gt (.valid now)) ∧
    (t.focusPoint ≠ .MilliSeconds → (TimePointUpdateTask.hasTasks now t).1 = true) ∧
    (TimePointUpdateTask.hasTasks now t).2 = t ∧
    (t.focusPoint = .MilliSeconds → ∀ tp : Int, t.timePoint = .valid tp → tp ≤ now →
      (TimePointUpdateTask.hasTasks now t).1 = false ∧
      (TimePointUpdateTask.nextTask t).1 = false) := by
  refine ⟨?_, ?_, ?_, ?_⟩
  · intro h
    simp [TimePointUpdateTask.hasTasks, h]
  · intro h
    simp [TimePointUpdateTask.hasTasks, h]
  · unfold TimePointUpdateTask.hasTasks
    split <;> rfl
  · intro h tp htp hle
    have : ¬ now < tp := by omega
    simp [TimePointUpdateTask.hasTasks, TimePointUpdateTask.nextTask, h, htp, QDateTime.gt,
      QDateTime.lt, this]

/-- Witness for C10: a single-shot task anchored at instant 5, polled at clock 9. -/
theorem TimePointUpdateTask.timePoint_hasTasks_spec_witness :
    (TimePointUpdateTask.hasTasks 9 (TimePointUpdateTask.construct (.valid 5) .MilliSeconds)).1 = false ∧
    (TimePointUpdateTask.nextTask (TimePointUpdateTask.construct (.valid 5) .MilliSeconds)).1 = false :=
  (TimePointUpdateTask.timePoint_hasTasks_spec 9 (TimePointUpdateTask.construct (.valid 5) .MilliSeconds)).2.2.2
    rfl 5 rfl (by decide)

/-- The eviction loop drops the leading elements whose `hasTasks()` is false and
stops at the first element whose `hasTasks()` is true. -/
theorem UpdateTaskList.evict_eq_dropWhile {τ : Type} [UpdateTask τ] (now : Int) (l : List τ) :
    UpdateTaskList.evict now l =
      match l.dropWhile (fun t => !(UpdateTask.hasTasks now t).1) with
      | [] => (false, [])
      | h :: tl => (true, (UpdateTask.hasTasks now h).2 :: tl) := by
  induction l with
  | nil => rfl
  | cons a rest ih =>
    by_cases ha : (UpdateTask.hasTasks now a).1 = true
    · simp [UpdateTaskList.evict, List.dropWhile, ha]
    · simp only [Bool.not_eq_true] at ha
      simp [UpdateTaskList.evict, List.dropWhile, ha, ih]

/-- C4: `UpdateTaskList::nextTask()`.  On the empty list it returns false.  When the
first element's `nextTask()` returns true it returns true and removes nothing.
Otherwise it drops the leading elements whose `hasTasks()` is false, returns true at
the first element whose `hasTasks()` is true, keeping it and everything after it, and
returns false with the empty list when no such element exists.  For `[A, B]` with
`A.nextTask()` and `A.hasTasks()` false and `B.hasTasks()` true the result is true,
the list becomes `[B]` and `currentTask()` is `B`'s. -/
theorem UpdateTaskList.nextTask_spec {τ : Type} [UpdateTask τ] (now : Int) :
    UpdateTaskList.nextTask now ([] : List τ) = (false, []) ∧
    (∀ (a : τ) (rest : List τ), (UpdateTask.nextTask now a).1 = true →
      UpdateTaskList.nextTask now (a :: rest) = (true, (UpdateTask.nextTask now a).2 :: rest)) ∧
    (∀ (a : τ) (rest : List τ), (UpdateTask.nextTask now a).1 = false →
      UpdateTaskList.nextTask now (a :: rest) =
        match ((UpdateTask.nextTask now a).2 :: rest).dropWhile
            (fun t => !(UpdateTask.hasTasks now t).1) with
        | [] => (false, [])
        | h :: tl => (true, (UpdateTask.hasTasks now h).2 :: tl)) ∧
    (∀ (a b : τ), (UpdateTask.nextTask now a).1 = false →
      (UpdateTask.hasTasks now (UpdateTask.nextTask now a).2).1 = false →
      (UpdateTask.hasTasks now b).1 = true →
      (UpdateTaskList.nextTask now [a, b]).1 = true ∧
      (UpdateTaskList.nextTask now [a, b]).2 = [(UpdateTask.hasTasks now b).2] ∧
      (UpdateTaskList.nextTask now [a, b]).2.length + 1 = [a, b].length ∧
      UpdateTaskList.currentTask (UpdateTaskList.nextTask now [a, b]).2 =
        UpdateTask.currentTask (UpdateTask.hasTasks now b).2) := by
  refine ⟨rfl, ?_, ?_, ?_⟩
  · intro a rest h
    simp [UpdateTaskList.nextTask, h]
  · intro a rest h
    simp only [UpdateTaskList.nextTask, h, Bool.false_eq_true, if_false]
    exact UpdateTaskList.evict_eq_dropWhile now _
  · intro a b ha ha2 hb
    have : UpdateTaskList.nextTask now [a, b] = (true, [(UpdateTask.hasTasks now b).2]) := by
      simp [UpdateTaskList.nextTask, UpdateTaskList.evict, ha, ha2, hb]
    simp [this, UpdateTaskList.currentTask]

/-- Witness for C4: `A` has one repetition and is already due, `B` is an infinite
task; one `nextTask()` on `[A, B]` at clock 20000 leaves `[B]`. -/
theorem UpdateTaskList.nextTask_spec_witness :
    (UpdateTaskList.nextTask 20000
        [(⟨⟨.valid 10000, 1⟩, ⟨10, .Seconds⟩, 1⟩ : BasicLoopUpdateTask),
         BasicLoopUpdateTask.construct 0 ⟨10, .Seconds⟩ (-1)]).2
      = [⟨⟨.valid 30000, -1⟩, ⟨10, .Seconds⟩, -1⟩] :=
  ((UpdateTaskList.nextTask_spec 20000).2.2.2
    (⟨⟨.valid 10000, 1⟩, ⟨10, .Seconds⟩, 1⟩ : BasicLoopUpdateTask)
    (BasicLoopUpdateTask.construct 0 ⟨10, .Seconds⟩ (-1)) (by decide) (by decide) (by decide)).2.1

namespace QDataStream

/-- The big-endian representation on `n` bytes has `n` bytes. -/
theorem beBytes_length (n v : Nat) : (beBytes n v).length = n := by
  induction n with
  | zero => rfl
  | succ n ih => simp [beBytes, ih]

/-- The value of the big-endian representation on `n` bytes is the number modulo
`256 ^ n`. -/
theorem beValue_beBytes (n v : Nat) : beValue (beBytes n v) = v % 256 ^ n := by
  induction n with
  | zero => simp [beBytes, beValue, Nat.mod_one]
  | succ n ih =>
    simp only [beBytes, beValue, beBytes_length, ih, Nat.mod_mod]
    rw [pow_succ, Nat.mod_mul, Nat.mul_comm]
    omega

/-- Reading `n` bytes that hold the representation of `v` gives `v` modulo `256 ^ n`
and leaves what follows. -/
theorem readUInt_beBytes (n v : Nat) (rest : QByteArray) :
    readUInt n (beBytes n v ++ rest) = (v % 256 ^ n, rest) := by
  have hl := beBytes_length n v
  simp only [readUInt, List.length_append, hl, Nat.le_add_right, if_true]
  rw [List.take_left' hl, List.drop_left' hl, beValue_beBytes]

/-- A written `qint32` is read back. -/
theorem readInt32_writeInt32 (v : Int) (rest : QByteArray) (h1 : -2 ^ 31 ≤ v) (h2 : v < 2 ^ 31) :
    readInt32 (writeInt32 v ++ rest) = (v, rest) := by
  unfold readInt32 writeInt32
  rw [readUInt_beBytes]
  unfold toInt32
  simp only [Prod.mk.injEq, and_true]
  omega

/-- A written `quint32` is read back. -/
theorem readUInt32_writeUInt32 (v : Nat) (rest : QByteArray) (h : v < 2 ^ 32) :
    readUInt32 (writeUInt32 v ++ rest) = (v, rest) := by
  unfold readUInt32 writeUInt32
  rw [readUInt_beBytes]
  simp only [Prod.mk.injEq, and_true]
  omega

/-- A string of `k` code units takes `2 * k` bytes. -/
theorem codeUnitBytes_length (str : QString) : (codeUnitBytes str).length = 2 * str.length := by
  induction str with
  | nil => rfl
  | cons u rest ih => simp [codeUnitBytes, ih]; omega

/-- The code units are recovered from their bytes. -/
theorem codeUnits_codeUnitBytes (str : QString) (h : ∀ u ∈ str, u < 65536) :
    codeUnits (codeUnitBytes str) = str := by
  induction str with
  | nil => rfl
  | cons u rest ih =>
    have hu : u < 65536 := h u (List.mem_cons_self _ _)
    have hrest : ∀ v ∈ rest, v < 65536 := fun v hv => h v (List.mem_cons_of_mem _ hv)
    simp only [codeUnitBytes, codeUnits, ih hrest, List.cons.injEq, and_true]
    omega

/-- A written `QString` is read back. -/
theorem readQString_writeQString (str : QString) (rest : QByteArray)
    (h : ∀ u ∈ str, u < 65536) (hlen : 2 * str.length < 2 ^ 32 - 1) :
    readQString (writeQString str ++ rest) = (str, rest) := by
  have hl := codeUnitBytes_length str
  unfold readQString writeQString
  rw [List.append_assoc, readUInt32_writeUInt32 _ _ (by omega)]
  dsimp only
  have hne : ¬ (2 * str.length = 0xffffffff) := by omega
  rw [if_neg hne]
  by_cases h0 : 2 * str.length > 0
  · rw [if_pos h0, if_neg (by omega), if_pos (by simp [hl])]
    rw [List.take_left' hl, List.drop_left' hl, codeUnits_codeUnitBytes str h]
  · rw [if_neg h0]
    have : str = [] := by
      cases str with
      | nil => rfl
      | cons a l => simp at h0
    subst this
    rfl

/-- Reading a payload that is present in full fills the whole buffer with it. -/
theorem readRawData_exact (buf payload rest : QByteArray) (h : buf.length = payload.length) :
    readRawData buf payload.length (payload ++ rest) = (payload, rest) := by
  unfold readRawData
  rw [List.take_left' rfl, List.drop_left' rfl, List.drop_of_length_le (by omega)]
  simp

/-- At the end of the stream a `QString` reads as the empty string. -/
theorem readQString_nil : readQString [] = ([], []) := by
  simp [readQString, readUInt32, readUInt]

/-- At the end of the stream an `int` reads as 0. -/
theorem readInt32_nil : readInt32 [] = (0, []) := by
  simp [readInt32, readUInt, toInt32]

end QDataStream

namespace UpdateTaskList

/-- Once the stream is at its end every further iteration of the loop reads an empty
tag and the length 0 and adds nothing. -/
theorem readEntries_nil {τ : Type} (buildTask : QString → QByteArray → Option τ)
    (uninit : Nat → Nat → Nat) (n i : Nat) :
    readEntries buildTask uninit n i [] = [] := by
  induction n generalizing i with
  | zero => rfl
  | succ n ih =>
    simp [readEntries, QDataStream.readQString_nil, QDataStream.readInt32_nil, ih]

/-- The element, if any, that one entry contributes to the reconstructed list. -/
theorem readEntries_encode {τ : Type} (buildTask : QString → QByteArray → Option τ)
    (uninit : Nat → Nat → Nat) (entries : List (QString × QByteArray))
    (hok : ∀ e ∈ entries, EntryOk e) (extra i : Nat) :
    readEntries buildTask uninit (entries.length + extra) i (entries.map encodeEntry).flatten =
      entries.filterMap (fun e => if e.2.length > 0 then buildTask e.1 e.2 else none) := by
  induction entries generalizing i with
  | nil =>
    simp [readEntries_nil]
  | cons e rest ih =>
    have he : EntryOk e := hok e (List.mem_cons_self _ _)
    have hrest : ∀ x ∈ rest, EntryOk x := fun x hx => hok x (List.mem_cons_of_mem _ hx)
    obtain ⟨hu, hsl, hpl⟩ := he
    have hcount : (e :: rest).length + extra = (rest.length + extra) + 1 := by
      simp; omega
    rw [hcount]
    simp only [List.map_cons, List.flatten_cons, encodeEntry, List.append_assoc, readEntries,
      QDataStream.readQString_writeQString e.1 _ hu hsl]
    rw [QDataStream.readInt32_writeInt32 _ _ (by omega) (by omega)]
    dsimp only
    by_cases hp : e.2.length > 0
    · have hp2 : ((e.2.length : Nat) : Int) > 0 := by omega
      rw [if_pos hp2]
      simp only [Int.toNat_ofNat]
      rw [QDataStream.readRawData_exact _ _ _ (by simp)]
      dsimp only
      rw [List.filterMap_cons]
      simp only [hp, if_true]
      cases hb : buildTask e.1 e.2 with
      | none => simp [ih hrest]
      | some t => simp [ih hrest]
    · have hp2 : ¬ (((e.2.length : Nat) : Int) > 0) := by omega
      rw [if_neg hp2]
      have hnil : e.2 = [] := by
        cases h : e.2 with
        | nil => rfl
        | cons a l => simp [h] at hp
      rw [List.filterMap_cons]
      simp only [hp, if_false]
      rw [hnil, List.nil_append]
      exact ih hrest _

/-- C5: for a well-formed buffer (a declared count followed by that many entries
of tag, length and payload) and any registry function `buildTask`, the list
reconstructed by `UpdateTaskList(const QByteArray &)` is, in stream order, the
non-null results `buildTask(tag, payload)` of the entries with a payload length above
zero: an entry that `buildTask` rejects is absent, every other entry is there. -/
theorem fromBytes_wellFormed {τ : Type} (buildTask : QString → QByteArray → Option τ)
    (uninit : Nat → Nat → Nat) (entries : List (QString × QByteArray))
    (hcount : entries.length < 2 ^ 31) (hok : ∀ e ∈ entries, EntryOk e) :
    fromBytes buildTask uninit (encodeEntries entries) =
      entries.filterMap (fun e => if e.2.length > 0 then buildTask e.1 e.2 else none) := by
  unfold fromBytes encodeEntries encodeDeclared
  rw [QDataStream.readInt32_writeInt32 _ _ (by omega) (by omega)]
  dsimp only
  rw [Int.toNat_ofNat]
  exact readEntries_encode buildTask uninit entries hok 0 0

/-- Witness for C5: three entries, the second with a tag the registry does not
know. -/
theorem fromBytes_wellFormed_witness :
    fromBytes (fun tag data => if tag = [65] then some data else none) (fun _ _ => 0)
        (encodeEntries [([65], [1, 2]), ([66], [3]), ([65], [4])])
      = [[1, 2], [4]] :=
  fromBytes_wellFormed (fun tag data => if tag = [65] then some data else none) (fun _ _ => 0)
    [([65], [1, 2]), ([66], [3]), ([65], [4])] (by decide)
    (by intro e he; simp at he; rcases he with rfl | rfl | rfl <;> simp [EntryOk])

/-- C7 (as amended): a buffer that declares more entries than it holds is
deserialised without any error indication: the constructor returns the list built
from the entries that are present, exactly what it returns for the well-formed
buffer holding those entries. -/
theorem fromBytes_truncated {τ : Type} (buildTask : QString → QByteArray → Option τ)
    (uninit : Nat → Nat → Nat) (count : Nat) (entries : List (QString × QByteArray))
    (hle : entries.length ≤ count) (hcount : count < 2 ^ 31) (hok : ∀ e ∈ entries, EntryOk e) :
    fromBytes buildTask uninit (encodeDeclared count entries) =
      entries.filterMap (fun e => if e.2.length > 0 then buildTask e.1 e.2 else none) ∧
    fromBytes buildTask uninit (encodeDeclared count entries) =
      fromBytes buildTask uninit (encodeEntries entries) := by
  have h1 : fromBytes buildTask uninit (encodeDeclared count entries) =
      entries.filterMap (fun e => if e.2.length > 0 then buildTask e.1 e.2 else none) := by
    unfold fromBytes encodeDeclared
    rw [QDataStream.readInt32_writeInt32 _ _ (by omega) (by omega)]
    dsimp only
    rw [Int.toNat_ofNat]
    obtain ⟨extra, rfl⟩ : ∃ extra, count = entries.length + extra := ⟨count - entries.length, by omega⟩
    exact readEntries_encode buildTask uninit entries hok extra 0
  have h2 : fromBytes buildTask uninit (encodeEntries entries) =
      entries.filterMap (fun e => if e.2.length > 0 then buildTask e.1 e.2 else none) := by
    unfold fromBytes encodeEntries encodeDeclared
    rw [QDataStream.readInt32_writeInt32 _ _ (by omega) (by omega)]
    dsimp only
    rw [Int.toNat_ofNat]
    exact readEntries_encode buildTask uninit entries hok 0 0
  exact ⟨h1, h1.trans h2.symm⟩

/-- Witness for C7 (as amended): a buffer declaring five entries and holding one. -/
theorem fromBytes_truncated_witness :
    fromBytes (fun tag data => some (tag, data)) (fun _ _ => 0)
        (encodeDeclared 5 [([65], [1, 2])])
      = [([65], [1, 2])] :=
  (fromBytes_truncated (fun tag data => some (tag, data)) (fun _ _ => 0) 5 [([65], [1, 2])]
    (by decide) (by decide)
    (by intro e he; simp at he; subst he; simp [EntryOk])).1

/-- Counterexample to C7 as stated: the 16 bytes below declare two entries and hold
one (tag `A`, payload `1 2`); the constructor returns the one-element list, the same
result as for the well-formed buffer that declares one entry.  A buffer cut inside a
payload (declared length 4, two bytes present) is turned into a task as well, built
from the two bytes and the prior content of the buffer. -/
theorem fromBytes_truncated_counterexample :
    fromBytes (fun tag data => some (tag, data)) (fun _ _ => 0)
        [0, 0, 0, 2, 0, 0, 0, 2, 0, 65, 0, 0, 0, 2, 1, 2] = [([65], [1, 2])] ∧
    fromBytes (fun tag data => some (tag, data)) (fun _ _ => 0)
        [0, 0, 0, 1, 0, 0, 0, 2, 0, 65, 0, 0, 0, 2, 1, 2] = [([65], [1, 2])] ∧
    fromBytes (fun tag data => some (tag, data)) (fun _ _ => 0)
        [0, 0, 0, 1, 0, 0, 0, 2, 0, 65, 0, 0, 0, 4, 1, 2] = [([65], [1, 2, 0, 0])] := by
  decide

end UpdateTaskList

/-- C8: for every count and each of the units `MilliSeconds`, `Seconds`, `Minutes`,
`Hours`, `Days` and `Weeks`, `TimeSpan(count, unit).msecs()` is `count * factor(unit)`
in unsigned 64-bit arithmetic, with the factors 1, 1000, 60000, 3600000, 86400000
and 604800000. -/
theorem TimeSpan.msecs_factor (months years count : Nat) :
    TimeSpan.msecs (TimeUnit.value months years) ⟨count, .MilliSeconds⟩ = (count * 1) % 2 ^ 64 ∧
    TimeSpan.msecs (TimeUnit.value months years) ⟨count, .Seconds⟩ = (count * 1000) % 2 ^ 64 ∧
    TimeSpan.msecs (TimeUnit.value months years) ⟨count, .Minutes⟩ = (count * 60000) % 2 ^ 64 ∧
    TimeSpan.msecs (TimeUnit.value months years) ⟨count, .Hours⟩ = (count * 3600000) % 2 ^ 64 ∧
    TimeSpan.msecs (TimeUnit.value months years) ⟨count, .Days⟩ = (count * 86400000) % 2 ^ 64 ∧
    TimeSpan.msecs (TimeUnit.value months years) ⟨count, .Weeks⟩ =
      (count * 604800000) % 2 ^ 64 :=
  ⟨rfl, rfl, rfl, rfl, rfl, rfl⟩

/-- Counterexample to C9 as stated.  The count `2^64 - 1` in milliseconds is cast to
the `qint64` value `-1`, so the result is one millisecond before the base; the month
count `2^32 - 1` is cast to the `int` value `-1`, so the result is a month before the
base.  With an amount that is not negative the result can leave the range of the
platform: `9223372036854776` seconds are a millisecond count beyond `qint64`, and the
sum with the base 2023-01-01 wraps around to an instant before the base. -/
theorem TimeSpan.addToDateTime_backward :
    TimeSpan.addToDateTime ⟨2 ^ 64 - 1, .MilliSeconds⟩ (.valid 1000) = .valid 999 ∧
    QDateTime.lt (TimeSpan.addToDateTime ⟨2 ^ 64 - 1, .MilliSeconds⟩ (.valid 1000))
      (.valid 1000) = true ∧
    TimeSpan.addToDateTime ⟨2 ^ 32 - 1, .Months⟩ (.valid 0) = .valid (-2678400000) ∧
    TimeSpan.castCount ⟨9223372036854776, .Seconds⟩ = 9223372036854776 ∧
    TimeSpan.addToDateTime ⟨9223372036854776, .Seconds⟩ (.valid 1672531200000) =
      .valid (-9223370364323575616) ∧
    (TimeSpan.addToDateTime ⟨9223372036854776, .Seconds⟩ (.valid 1672531200000)).ge
      (.valid 1672531200000) = false := by
  decide

/-- The Julian day of a date is the day of the month plus the Julian day of day 0 of
that month. -/
theorem julianDayFromDate_day (y m d : Int) :
    julianDayFromDate y m d = julianDayFromDate y m 0 + d := by
  simp only [julianDayFromDate]
  omega

/-- Converting a Julian day to a date and back gives the Julian day. -/
theorem julianDayFromDate_getDate (z : Int) :
    julianDayFromDate (getDateFromJulianDay z).1 (getDateFromJulianDay z).2.1
      (getDateFromJulianDay z).2.2 = z := by
  simp only [julianDayFromDate, getDateFromJulianDay]
  generalize hb : (4 * (z + 32044) + 3) / 146097 = b
  generalize hc : z + 32044 - 146097 * b / 4 = c
  generalize hd : (4 * c + 3) / 1461 = d
  generalize he : c - 1461 * d / 4 = e
  generalize hm : (5 * e + 2) / 153 = m
  have hc0 : 0 ≤ c ∧ c ≤ 36524 := by omega
  have hd0 : 0 ≤ d ∧ d ≤ 99 := by omega
  have he0 : 0 ≤ e ∧ e ≤ 365 := by omega
  have hm0 : 0 ≤ m ∧ m ≤ 11 := by omega
  generalize ho : m / 10 = o
  generalize hp : (14 - (m + 3 - 12 * o)) / 12 = p
  have hpo : p = o := by omega
  subst hpo
  have hy : 100 * b + d - 4800 + p + 4800 - p = 100 * b + d := by ring
  have hm2 : m + 3 - 12 * p + 12 * p - 3 = m := by ring
  rw [hy, hm2]
  have hy4 : (100 * b + d) / 4 = 25 * b + d / 4 := by omega
  have hy100 : (100 * b + d) / 100 = b := by omega
  have hy400 : (100 * b + d) / 400 = b / 4 := by omega
  have hq1 : 146097 * b / 4 = 36524 * b + b / 4 := by omega
  have hq2 : 1461 * d / 4 = 365 * d + d / 4 := by omega
  omega

/-- The date of a Julian day is a date of the calendar: the month is in 1..12 and the
day in 1..length of the month. -/
theorem getDate_valid (z : Int) :
    1 ≤ (getDateFromJulianDay z).2.1 ∧ (getDateFromJulianDay z).2.1 ≤ 12 ∧
    1 ≤ (getDateFromJulianDay z).2.2 ∧
    (getDateFromJulianDay z).2.2 ≤
      daysInMonth (getDateFromJulianDay z).1 (getDateFromJulianDay z).2.1 := by
  simp only [getDateFromJulianDay]
  generalize hb : (4 * (z + 32044) + 3) / 146097 = b
  generalize hc : z + 32044 - 146097 * b / 4 = c
  generalize hd : (4 * c + 3) / 1461 = d
  generalize he : c - 1461 * d / 4 = e
  generalize hm : (5 * e + 2) / 153 = m
  have hc0 : 0 ≤ c ∧ c ≤ 36524 := by omega
  have hd0 : 0 ≤ d ∧ d ≤ 99 := by omega
  have he0 : 0 ≤ e ∧ e ≤ 365 := by omega
  have hm0 : 0 ≤ m ∧ m ≤ 11 := by omega
  have hq2 : 1461 * d / 4 = 365 * d + d / 4 := by omega
  have hq1 : 146097 * b / 4 = 36524 * b + b / 4 := by omega
  have hleap1 : e = 365 → d % 4 = 3 := by
    intro h
    omega
  have hleap2 : e = 365 → d = 99 → b % 4 = 3 := by
    intro h h99
    omega
  have hy4 : (100 * b + d - 4800 + 1) % 4 = (d + 1) % 4 := by omega
  have hy100 : (100 * b + d - 4800 + 1) % 100 = (d + 1) % 100 := by omega
  have hy400 : d = 99 → (100 * b + d - 4800 + 1) % 400 = 100 * ((b + 1) % 4) := by
    intro h
    omega
  obtain ⟨hm1, hm2⟩ := hm0
  unfold daysInMonth isLeapYear
  interval_cases m
  all_goals norm_num
  all_goals (try split)
  all_goals (try omega)

/-- Day 0 of the month after month `m` of year `y` is the length of month `m` after day
0 of month `m`; months are counted by the index `12 * y + (m - 1)`. -/
theorem julianDay_next_month (M : Int) :
    julianDayFromDate ((M + 1) / 12) ((M + 1) % 12 + 1) 0 =
      julianDayFromDate (M / 12) (M % 12 + 1) 0 + daysInMonth (M / 12) (M % 12 + 1) := by
  obtain ⟨y, r, hr0, hr1, rfl⟩ : ∃ y r : Int, 0 ≤ r ∧ r ≤ 11 ∧ M = 12 * y + r :=
    ⟨M / 12, M % 12, by omega, by omega, by omega⟩
  have h1 : (12 * y + r) / 12 = y := by omega
  have h2 : (12 * y + r) % 12 = r := by omega
  rw [h1, h2]
  unfold daysInMonth isLeapYear julianDayFromDate
  interval_cases r
  all_goals norm_num
  all_goals (try split)
  all_goals (try omega)


/-- Every month has at least 28 days. -/
theorem daysInMonth_ge (y m : Int) : 28 ≤ daysInMonth y m := by
  unfold daysInMonth
  split
  · split <;> omega
  · split <;> omega

/-- Day 0 of a month `k` months later is not before day 0 of the month, and at least
the length of the month later when `k` is not zero. -/
theorem julianDay_month_mono (M : Int) (k : Nat) :
    julianDayFromDate (M / 12) (M % 12 + 1) 0 +
        (if k = 0 then 0 else daysInMonth (M / 12) (M % 12 + 1)) ≤
      julianDayFromDate ((M + k) / 12) ((M + k) % 12 + 1) 0 := by
  induction k with
  | zero => simp
  | succ k ih =>
    have hstep := julianDay_next_month (M + k)
    have hpos := daysInMonth_ge ((M + k) / 12) ((M + k) % 12 + 1)
    have hcast : M + ((k + 1 : Nat) : Int) = M + k + 1 := by push_cast; ring
    rw [hcast, hstep]
    by_cases hk : k = 0
    · subst hk
      simp
    · rw [if_neg hk] at ih
      rw [if_neg (by omega)]
      omega

/-- Moving a date `k ≥ 0` months ahead, with the day clamped to the length of the
target month, does not give an earlier date. -/
theorem fixedDate_months_ahead (z : Int) (k : Nat) :
    z ≤ fixedDate
      (((getDateFromJulianDay z).1 * 12 + ((getDateFromJulianDay z).2.1 - 1) + k) / 12)
      (((getDateFromJulianDay z).1 * 12 + ((getDateFromJulianDay z).2.1 - 1) + k) % 12 + 1)
      (getDateFromJulianDay z).2.2 := by
  have hrt := julianDayFromDate_getDate z
  obtain ⟨hm1, hm2, hd1, hd2⟩ := getDate_valid z
  generalize (getDateFromJulianDay z).1 = y at *
  generalize (getDateFromJulianDay z).2.1 = m at *
  generalize (getDateFromJulianDay z).2.2 = d at *
  have hmono := julianDay_month_mono (y * 12 + (m - 1)) k
  have h1 : (y * 12 + (m - 1)) / 12 = y := by omega
  have h2 : (y * 12 + (m - 1)) % 12 + 1 = m := by omega
  rw [h1, h2] at hmono
  rw [julianDayFromDate_day] at hrt
  unfold fixedDate
  rw [julianDayFromDate_day]
  have hpos := daysInMonth_ge ((y * 12 + (m - 1) + k) / 12) ((y * 12 + (m - 1) + k) % 12 + 1)
  by_cases hk : k = 0
  · subst hk
    simp only [Nat.cast_zero, add_zero, h1, h2]
    rw [min_eq_left hd2]
    omega
  · rw [if_neg hk] at hmono
    have hmin : 1 ≤ min d (daysInMonth ((y * 12 + (m - 1) + k) / 12)
        ((y * 12 + (m - 1) + k) % 12 + 1)) := by
      apply le_min <;> omega
    omega

/-- `QDate::addMonths` with a non-negative count does not give an earlier date. -/
theorem dateAddMonths_ge (z n : Int) (hn : 0 ≤ n) : z ≤ dateAddMonths z n := by
  obtain ⟨k, rfl⟩ : ∃ k : Nat, n = k := ⟨n.toNat, by omega⟩
  exact fixedDate_months_ahead z k

/-- `QDate::addYears` with a non-negative count does not give an earlier date. -/
theorem dateAddYears_ge (z n : Int) (hn : 0 ≤ n) : z ≤ dateAddYears z n := by
  obtain ⟨k, rfl⟩ : ∃ k : Nat, n = k := ⟨n.toNat, by omega⟩
  have h := fixedDate_months_ahead z (12 * k)
  obtain ⟨hm1, hm2, -, -⟩ := getDate_valid z
  unfold dateAddYears
  dsimp only
  have h1 : ((getDateFromJulianDay z).1 * 12 + ((getDateFromJulianDay z).2.1 - 1) +
      ((12 * k : Nat) : Int)) / 12 = (getDateFromJulianDay z).1 + k := by
    push_cast; omega
  have h2 : ((getDateFromJulianDay z).1 * 12 + ((getDateFromJulianDay z).2.1 - 1) +
      ((12 * k : Nat) : Int)) % 12 + 1 = (getDateFromJulianDay z).2.1 := by
    push_cast; omega
  rw [h1, h2] at h
  exact h

/-- A value within the `qint64` range is not changed by the reduction to that range. -/
theorem toInt64_of_range (x : Int) (h1 : -2 ^ 63 ≤ x) (h2 : x < 2 ^ 63) : toInt64 x = x := by
  unfold toInt64
  omega

/-- Replacing the day number of an instant by a later one, keeping the time of day,
does not give an earlier instant. -/
theorem msecs_of_later_day (t jd : Int) (h : t / msecsPerDay + epochJulianDay ≤ jd) :
    t ≤ (jd - epochJulianDay) * msecsPerDay + t % msecsPerDay := by
  unfold msecsPerDay epochJulianDay at *
  omega

/-- A date and a time of day whose instant has a millisecond count within the `qint64`
range give that instant: such a date is within the range of `QDate`. -/
theorem QDateTime.ofDate_of_range (jd tod : Int) (h0 : 0 ≤ tod) (h1 : tod < msecsPerDay)
    (hlo : -2 ^ 63 ≤ (jd - epochJulianDay) * msecsPerDay + tod)
    (hhi : (jd - epochJulianDay) * msecsPerDay + tod < 2 ^ 63) :
    QDateTime.ofDate jd tod = .valid ((jd - epochJulianDay) * msecsPerDay + tod) := by
  unfold QDateTime.ofDate
  rw [if_pos, toInt64_of_range _ hlo hhi]
  unfold QDataStream.minJd QDataStream.maxJd
  unfold msecsPerDay epochJulianDay at *
  omega

/-- The sum of `addSecs` does not depend on the reduction of the product to the
`qint64` range. -/
theorem toInt64_add_toInt64 (a b : Int) : toInt64 (a + toInt64 b) = toInt64 (a + b) := by
  unfold toInt64
  omega

/-- When the base is an instant of the platform, the amount handed to the platform is
not negative and the exact result does not exceed the `qint64` range, then
`addToDateTime` gives the exact result, which is not before the base. -/
theorem TimeSpan.addToDateTime_exact (t : TimeSpan) (base : Int) (hbase : -2 ^ 63 ≤ base)
    (hn : 0 ≤ t.castCount) (hfit : t.exactResult base < 2 ^ 63) :
    t.addToDateTime (.valid base) = .valid (t.exactResult base) ∧ base ≤ t.exactResult base := by
  have hle : base ≤ t.exactResult base := by
    obtain ⟨count, unit⟩ := t
    cases unit <;> simp only [TimeSpan.castCount] at hn <;>
      simp only [TimeSpan.exactResult, TimeSpan.castCount]
    · omega
    · omega
    · omega
    · omega
    · unfold msecsPerDay; omega
    · unfold msecsPerDay; omega
    · exact msecs_of_later_day base _ (dateAddMonths_ge _ _ hn)
    · exact msecs_of_later_day base _ (dateAddYears_ge _ _ hn)
  refine ⟨?_, hle⟩
  have hlo : -2 ^ 63 ≤ t.exactResult base := le_trans hbase hle
  have hsecs : ∀ n : Int, base + n * 1000 = t.exactResult base →
      (QDateTime.valid base).addSecs n = .valid (t.exactResult base) := by
    intro n h
    simp only [QDateTime.addSecs]
    rw [toInt64_add_toInt64, h, toInt64_of_range _ hlo hfit]
  have htod0 : 0 ≤ base % msecsPerDay := by unfold msecsPerDay; omega
  have htod1 : base % msecsPerDay < msecsPerDay := by unfold msecsPerDay; omega
  have hdate : ∀ jd : Int,
      (jd - epochJulianDay) * msecsPerDay + base % msecsPerDay = t.exactResult base →
      QDateTime.ofDate jd (base % msecsPerDay) = .valid (t.exactResult base) := by
    intro jd h
    rw [QDateTime.ofDate_of_range jd _ htod0 htod1 (by rw [h]; exact hlo) (by rw [h]; exact hfit), h]
  obtain ⟨count, unit⟩ := t
  cases unit <;> simp only [TimeSpan.addToDateTime]
  · simp only [QDateTime.addMSecs]
    exact congrArg QDateTime.valid (toInt64_of_range _ hlo hfit)
  · exact hsecs _ rfl
  · exact hsecs _ rfl
  · exact hsecs _ rfl
  · exact hdate _ (by simp only [TimeSpan.exactResult, TimeSpan.castCount]; unfold msecsPerDay; omega)
  · exact hdate _ (by simp only [TimeSpan.exactResult, TimeSpan.castCount]; unfold msecsPerDay; omega)
  · exact hdate _ rfl
  · exact hdate _ rfl

/-- C9 (as amended): when the base is an instant of the platform, the amount handed
to the platform, that is the count cast to `qint64` (times 60, 3600 or 7 for minutes,
hours and weeks) or cast to `int` for months and years, is not negative, and the exact
result does not exceed the range of the platform's millisecond count, then
`TimeSpan(count, unit).addToDateTime(base)` is that exact result and is not earlier
than `base`; with a null base the result is never earlier than the base. -/
theorem TimeSpan.addToDateTime_ge (t : TimeSpan) :
    (∀ base : Int, -2 ^ 63 ≤ base → 0 ≤ t.castCount → t.exactResult base < 2 ^ 63 →
      t.addToDateTime (.valid base) = .valid (t.exactResult base) ∧
      (t.addToDateTime (.valid base)).ge (.valid base) = true) ∧
    (t.addToDateTime .null).ge .null = true := by
  refine ⟨?_, ?_⟩
  · intro base hbase hn hfit
    obtain ⟨h1, h2⟩ := TimeSpan.addToDateTime_exact t base hbase hn hfit
    refine ⟨h1, ?_⟩
    rw [h1]
    simp only [QDateTime.ge, QDateTime.lt, Bool.not_eq_true', decide_eq_false_iff_not, not_lt]
    exact h2
  · obtain ⟨count, unit⟩ := t
    cases unit <;> rfl

/-- Witness for C9 (as amended): 90 minutes and 13 months added to instants. -/
theorem TimeSpan.addToDateTime_ge_witness :
    (TimeSpan.addToDateTime ⟨90, .Minutes⟩ (.valid 1000)).ge (.valid 1000) = true ∧
    (TimeSpan.addToDateTime ⟨13, .Months⟩ (.valid 1675209599999)).ge
      (.valid 1675209599999) = true :=
  ⟨((TimeSpan.addToDateTime_ge ⟨90, .Minutes⟩).1 1000 (by decide) (by decide) (by decide)).2,
   ((TimeSpan.addToDateTime_ge ⟨13, .Months⟩).1 1675209599999 (by decide) (by decide)
      (by decide)).2⟩

namespace QDataStream

/-- A written `quint64` is read back. -/
theorem readUInt64_writeUInt64 (v : Nat) (rest : QByteArray) (h : v < 2 ^ 64) :
    readUInt64 (writeUInt64 v ++ rest) = (v, rest) := by
  unfold readUInt64 writeUInt64
  rw [readUInt_beBytes]
  simp only [Prod.mk.injEq, and_true]
  omega

/-- A written `qint64` is read back, reduced to the `qint64` range. -/
theorem readInt64_writeInt64 (v : Int) (rest : QByteArray) :
    readInt64 (writeInt64 v ++ rest) = (toInt64 v, rest) := by
  unfold readInt64 writeInt64
  rw [readUInt_beBytes]
  unfold toInt64
  simp only [Prod.mk.injEq, and_true]
  omega

/-- The six units with a fixed millisecond factor are recovered from their stored
value, whatever the values of `Months` and `Years` are. -/
theorem ofValue_value (months years : Nat) (u : TimeUnit) (h1 : u ≠ .Months) (h2 : u ≠ .Years) :
    TimeUnit.ofValue (TimeUnit.value months years) (TimeUnit.value months years u) = some u := by
  cases u <;> simp [TimeUnit.ofValue, TimeUnit.value] at h1 h2 ⊢

/-- A written `TimeSpan` is read back as its count and the value of its unit. -/
theorem readTimeSpan_writeTimeSpan (unitValue : TimeUnit → Nat) (t : TimeSpan)
    (rest : QByteArray) (hc : t.count < 2 ^ 64) (hv : unitValue t.unit < 2 ^ 64) :
    readTimeSpan (writeTimeSpan unitValue t ++ rest) = (t.count, unitValue t.unit, rest) := by
  unfold readTimeSpan writeTimeSpan
  rw [List.append_assoc, readUInt64_writeUInt64 _ _ hc]
  dsimp only
  rw [readUInt64_writeUInt64 _ _ hv]

/-- A written null `QDateTime` is read back as null. -/
theorem readQDateTime_writeQDateTime_null (rest : QByteArray) :
    readQDateTime (writeQDateTime .null ++ rest) = (.null, rest) := by
  unfold readQDateTime writeQDateTime
  rw [List.append_assoc, List.append_assoc, readInt64_writeInt64]
  dsimp only
  rw [readUInt32_writeUInt32 _ _ (by norm_num)]
  have hj : ¬ (minJd ≤ toInt64 nullJd ∧ toInt64 nullJd ≤ maxJd) := by
    unfold minJd maxJd nullJd toInt64
    omega
  rw [if_neg hj]
  simp [readUInt]

/-- A written instant within the `qint64` millisecond range is read back. -/
theorem readQDateTime_writeQDateTime_valid (t : Int) (rest : QByteArray)
    (h1 : -2 ^ 63 ≤ t) (h2 : t < 2 ^ 63) :
    readQDateTime (writeQDateTime (.valid t) ++ rest) = (.valid t, rest) := by
  unfold readQDateTime writeQDateTime
  rw [List.append_assoc, List.append_assoc, readInt64_writeInt64]
  dsimp only
  have hm : (t % msecsPerDay).toNat < 2 ^ 32 := by
    unfold msecsPerDay
    omega
  rw [readUInt32_writeUInt32 _ _ hm]
  dsimp only
  have hjd : toInt64 (t / msecsPerDay + epochJulianDay) = t / msecsPerDay + epochJulianDay := by
    unfold toInt64 msecsPerDay epochJulianDay
    omega
  rw [hjd]
  have hj : minJd ≤ t / msecsPerDay + epochJulianDay ∧ t / msecsPerDay + epochJulianDay ≤ maxJd := by
    unfold minJd maxJd msecsPerDay epochJulianDay
    omega
  rw [if_pos hj]
  have hlt : (t % msecsPerDay).toNat < 86400000 := by
    unfold msecsPerDay
    omega
  rw [if_pos hlt]
  have hval : (t / msecsPerDay + epochJulianDay - epochJulianDay) * msecsPerDay +
      ((t % msecsPerDay).toNat : Int) = t := by
    unfold msecsPerDay epochJulianDay
    omega
  rw [hval]
  simp [readUInt]

end QDataStream

/-- Reloading a stored interval task: the pause span is kept, `nextPoint` is null
again, and the repeat count is the stored `repetitionsLeft`. -/
theorem BasicLoopUpdateTask.loop_fromBytes_store (months years : Nat) (initReps : Int)
    (t : BasicLoopUpdateTask) (hc : t.loopDelta.count < 2 ^ 64)
    (h1 : t.loopDelta.unit ≠ .Months) (h2 : t.loopDelta.unit ≠ .Years) :
    BasicLoopUpdateTask.fromBytes (TimeUnit.value months years) initReps
        (BasicLoopUpdateTask.store (TimeUnit.value months years) t) =
      some { base := { nextPoint := .null, repetitionsLeft := initReps },
             loopDelta := t.loopDelta, repCount := toInt64 t.base.repetitionsLeft } := by
  have hv : TimeUnit.value months years t.loopDelta.unit < 2 ^ 64 := by
    generalize t.loopDelta.unit = unit at h1 h2 ⊢
    cases unit <;> simp [TimeUnit.value] at h1 h2 ⊢
  unfold BasicLoopUpdateTask.fromBytes BasicLoopUpdateTask.Raw.task
    BasicLoopUpdateTask.Raw.fromBytes BasicLoopUpdateTask.store
  rw [QDataStream.readTimeSpan_writeTimeSpan _ t.loopDelta _ hc hv]
  dsimp only
  rw [← List.append_nil (QDataStream.writeInt64 _), QDataStream.readInt64_writeInt64,
    QDataStream.ofValue_value months years t.loopDelta.unit h1 h2]
  rfl

/-- Reloading a stored time-point task gives the task as first constructed from its
`timePoint` and focus unit. -/
theorem TimePointUpdateTask.timePoint_fromBytes_store (months years : Nat) (t : TimePointUpdateTask)
    (htp : t.timePoint = .null ∨ ∃ ms : Int, t.timePoint = .valid ms ∧ -2 ^ 63 ≤ ms ∧ ms < 2 ^ 63)
    (h1 : t.focusPoint ≠ .Months) (h2 : t.focusPoint ≠ .Years) :
    TimePointUpdateTask.fromBytes (TimeUnit.value months years)
        (TimePointUpdateTask.store (TimeUnit.value months years) t) =
      some (TimePointUpdateTask.construct t.timePoint t.focusPoint) := by
  have hv : TimeUnit.value months years t.focusPoint < 2 ^ 64 := by
    obtain ⟨tp, unit, np⟩ := t
    cases unit <;> simp [TimeUnit.value] at h1 h2 ⊢
  have hread : QDataStream.readQDateTime (QDataStream.writeQDateTime t.timePoint ++
      QDataStream.writeUInt64 (TimeUnit.value months years t.focusPoint)) =
      (t.timePoint, QDataStream.writeUInt64 (TimeUnit.value months years t.focusPoint)) := by
    rcases htp with h | ⟨ms, h, hlo, hhi⟩
    · rw [h]; exact QDataStream.readQDateTime_writeQDateTime_null _
    · rw [h]; exact QDataStream.readQDateTime_writeQDateTime_valid ms _ hlo hhi
  unfold TimePointUpdateTask.fromBytes TimePointUpdateTask.Raw.task
    TimePointUpdateTask.Raw.fromBytes TimePointUpdateTask.store
  rw [hread]
  dsimp only
  rw [← List.append_nil (QDataStream.writeUInt64 _), QDataStream.readUInt64_writeUInt64 _ _ hv]
  dsimp only
  rw [QDataStream.ofValue_value months years t.focusPoint h1 h2]
  rfl

/-- The bytes written by `UpdateTaskList::store` are the well-formed buffer of the
entries (tag, stored bytes) of the elements. -/
theorem UpdateTaskList.store_eq_encodeEntries {τ : Type} (tag : τ → QString)
    (storeTask : τ → QByteArray) (l : List τ) :
    UpdateTaskList.store tag storeTask l =
      UpdateTaskList.encodeEntries (l.map (fun t => (tag t, storeTask t))) := by
  unfold UpdateTaskList.store UpdateTaskList.encodeEntries UpdateTaskList.encodeDeclared
  rw [List.length_map, List.map_map]
  congr 2
  apply List.map_congr_left
  intro t _
  simp only [Function.comp, UpdateTaskList.encodeEntry, QDataStream.writeRawData]
  by_cases h : (storeTask t).length > 0
  · rw [if_pos h]
  · rw [if_neg h]
    have : storeTask t = [] := List.eq_nil_of_length_eq_zero (by omega)
    rw [this]

/-- The stored form of an interval task has 24 bytes. -/
theorem BasicLoopUpdateTask.loop_store_length (unitValue : TimeUnit → Nat) (t : BasicLoopUpdateTask) :
    (BasicLoopUpdateTask.store unitValue t).length = 24 := by
  simp [BasicLoopUpdateTask.store, QDataStream.writeTimeSpan, QDataStream.writeUInt64,
    QDataStream.writeInt64, QDataStream.beBytes_length]

/-- The stored form of a time-point task has 21 bytes. -/
theorem TimePointUpdateTask.timePoint_store_length (unitValue : TimeUnit → Nat) (t : TimePointUpdateTask) :
    (TimePointUpdateTask.store unitValue t).length = 21 := by
  cases h : t.timePoint <;>
  simp [TimePointUpdateTask.store, QDataStream.writeQDateTime, QDataStream.writeUInt64,
    QDataStream.writeInt64, QDataStream.writeUInt32, QDataStream.beBytes_length, h]

/-- The tags of the model registry fit the wire format. -/
theorem UpdateScheduler.tIndexToInfo_ok (i : TypeIndex) :
    (∀ u ∈ UpdateScheduler.tIndexToInfo i, u < 65536) ∧
    2 * (UpdateScheduler.tIndexToInfo i).length < 2 ^ 32 - 1 := by
  cases i <;> decide

/-- Storing a list of an interval task and a time-point task and reloading it through
the registry: the time-point task comes back as constructed, the interval task comes
back with the repeat count `repetitionsLeft` had when it was stored. -/
theorem UpdateTaskList.fromBytes_store_pair (months years : Nat) (initReps : Int)
    (uninit : Nat → Nat → Nat) (a : BasicLoopUpdateTask) (b : TimePointUpdateTask)
    (hc : a.loopDelta.count < 2 ^ 64)
    (ha1 : a.loopDelta.unit ≠ .Months) (ha2 : a.loopDelta.unit ≠ .Years)
    (htp : b.timePoint = .null ∨ ∃ ms : Int, b.timePoint = .valid ms ∧ -2 ^ 63 ≤ ms ∧ ms < 2 ^ 63)
    (hb1 : b.focusPoint ≠ .Months) (hb2 : b.focusPoint ≠ .Years) :
    UpdateTaskList.fromBytes
        (UpdateScheduler.buildTask UpdateScheduler.tIndexToInfo (TimeUnit.value months years)
          initReps) uninit
        (UpdateTaskList.store (fun t => UpdateScheduler.tIndexToInfo t.typeIndex)
          (AnyTask.store (TimeUnit.value months years)) [AnyTask.loop a, AnyTask.point b]) =
      [AnyTask.loop { base := { nextPoint := .null, repetitionsLeft := initReps },
                      loopDelta := a.loopDelta, repCount := toInt64 a.base.repetitionsLeft },
       AnyTask.point (TimePointUpdateTask.construct b.timePoint b.focusPoint)] := by
  rw [UpdateTaskList.store_eq_encodeEntries]
  unfold UpdateTaskList.fromBytes UpdateTaskList.encodeEntries UpdateTaskList.encodeDeclared
  rw [QDataStream.readInt32_writeInt32 _ _ (by simp) (by simp)]
  dsimp only
  rw [Int.toNat_ofNat]
  have hla := BasicLoopUpdateTask.loop_store_length (TimeUnit.value months years) a
  have hlb := TimePointUpdateTask.timePoint_store_length (TimeUnit.value months years) b
  have hok : ∀ e ∈ [AnyTask.loop a, AnyTask.point b].map
      (fun t => (UpdateScheduler.tIndexToInfo t.typeIndex,
        AnyTask.store (TimeUnit.value months years) t)), UpdateTaskList.EntryOk e := by
    intro e he
    simp only [List.map_cons, List.map_nil, List.mem_cons, List.mem_singleton,
      List.not_mem_nil, or_false] at he
    rcases he with rfl | rfl
    · exact ⟨(UpdateScheduler.tIndexToInfo_ok .BasicLoopUpdateTask).1,
        (UpdateScheduler.tIndexToInfo_ok .BasicLoopUpdateTask).2, by simp [AnyTask.store, hla]⟩
    · exact ⟨(UpdateScheduler.tIndexToInfo_ok .TimePointUpdateTask).1,
        (UpdateScheduler.tIndexToInfo_ok .TimePointUpdateTask).2, by simp [AnyTask.store, hlb]⟩
  have h := UpdateTaskList.readEntries_encode
    (UpdateScheduler.buildTask UpdateScheduler.tIndexToInfo (TimeUnit.value months years) initReps)
    uninit _ hok 0 0
  rw [Nat.add_zero] at h
  rw [h]
  have htag : UpdateScheduler.tIndexToInfo .TimePointUpdateTask ≠
      UpdateScheduler.tIndexToInfo .BasicLoopUpdateTask := by decide
  simp [AnyTask.store, AnyTask.typeIndex, hla, hlb, UpdateScheduler.buildTask, htag,
    BasicLoopUpdateTask.loop_fromBytes_store months years initReps a hc ha1 ha2,
    TimePointUpdateTask.timePoint_fromBytes_store months years b htp hb1 hb2]

/-- C6 (the code at the failing input): a freshly constructed list of an interval task
with a 10 s pause and `n` repetitions and a daily time-point task, stored and
reloaded.  The reloaded interval task has the repeat count `initReps`, the value the
base-class constructor gave `repetitionsLeft`, in place of `n`; so whatever that
value is, the reloaded list differs from the original for `n = 3` or for `n = 4`.
With `initReps = 0` the first `hasTasks()` at clock 0 leaves the original list
waiting for the interval task (due at 10000) while the reloaded list has dropped it
and waits for the time-point task. -/
theorem UpdateTaskList.storeAndReload_repeatCount (months years : Nat) (initReps : Int)
    (uninit : Nat → Nat → Nat) :
    (∀ n : Int,
      UpdateTaskList.storeAndReload months years initReps uninit
          [AnyTask.loop (BasicLoopUpdateTask.construct initReps ⟨10, .Seconds⟩ n),
           AnyTask.point (TimePointUpdateTask.construct (.valid 86400000) .Days)] =
        [AnyTask.loop (BasicLoopUpdateTask.construct initReps ⟨10, .Seconds⟩ (toInt64 initReps)),
         AnyTask.point (TimePointUpdateTask.construct (.valid 86400000) .Days)]) ∧
    (UpdateTaskList.storeAndReload months years initReps uninit
          [AnyTask.loop (BasicLoopUpdateTask.construct initReps ⟨10, .Seconds⟩ 3),
           AnyTask.point (TimePointUpdateTask.construct (.valid 86400000) .Days)] ≠
        [AnyTask.loop (BasicLoopUpdateTask.construct initReps ⟨10, .Seconds⟩ 3),
         AnyTask.point (TimePointUpdateTask.construct (.valid 86400000) .Days)] ∨
      UpdateTaskList.storeAndReload months years initReps uninit
          [AnyTask.loop (BasicLoopUpdateTask.construct initReps ⟨10, .Seconds⟩ 4),
           AnyTask.point (TimePointUpdateTask.construct (.valid 86400000) .Days)] ≠
        [AnyTask.loop (BasicLoopUpdateTask.construct initReps ⟨10, .Seconds⟩ 4),
         AnyTask.point (TimePointUpdateTask.construct (.valid 86400000) .Days)]) ∧
    (UpdateTaskList.hasTasks 0
        [AnyTask.loop (BasicLoopUpdateTask.construct 0 ⟨10, .Seconds⟩ 3),
         AnyTask.point (TimePointUpdateTask.construct (.valid 86400000) .Days)] =
      (true, [AnyTask.loop ⟨⟨.valid 10000, 3⟩, ⟨10, .Seconds⟩, 3⟩,
              AnyTask.point (TimePointUpdateTask.construct (.valid 86400000) .Days)])) ∧
    (UpdateTaskList.hasTasks 0
        (UpdateTaskList.storeAndReload months years 0 uninit
          [AnyTask.loop (BasicLoopUpdateTask.construct 0 ⟨10, .Seconds⟩ 3),
           AnyTask.point (TimePointUpdateTask.construct (.valid 86400000) .Days)]) =
      (true, [AnyTask.point (TimePointUpdateTask.construct (.valid 86400000) .Days)])) := by
  have hreload : ∀ (r n : Int),
      UpdateTaskList.storeAndReload months years r uninit
          [AnyTask.loop (BasicLoopUpdateTask.construct r ⟨10, .Seconds⟩ n),
           AnyTask.point (TimePointUpdateTask.construct (.valid 86400000) .Days)] =
        [AnyTask.loop (BasicLoopUpdateTask.construct r ⟨10, .Seconds⟩ (toInt64 r)),
         AnyTask.point (TimePointUpdateTask.construct (.valid 86400000) .Days)] := by
    intro r n
    unfold UpdateTaskList.storeAndReload
    rw [UpdateTaskList.fromBytes_store_pair months years r uninit
      (BasicLoopUpdateTask.construct r ⟨10, .Seconds⟩ n)
      (TimePointUpdateTask.construct (.valid 86400000) .Days)
      (by simp [BasicLoopUpdateTask.construct]) (by simp [BasicLoopUpdateTask.construct])
      (by simp [BasicLoopUpdateTask.construct])
      (Or.inr ⟨86400000, rfl, by norm_num, by norm_num⟩)
      (by simp [TimePointUpdateTask.construct]) (by simp [TimePointUpdateTask.construct])]
    rfl
  refine ⟨hreload initReps, ?_, by decide, ?_⟩
  · rw [hreload initReps 3, hreload initReps 4]
    by_cases h : toInt64 initReps = 3
    · right
      simp [BasicLoopUpdateTask.construct, h]
    · left
      simp [BasicLoopUpdateTask.construct, h]
  · rw [hreload 0 3]
    decide

/-- Counterexample to C11 as stated: the sum of the prior value and one unit can lie
beyond the platform's `qint64` millisecond count.  From the last instant of that
range, `nextTask()` with the focus unit `Days` or `Seconds` returns true and leaves a
`nextPoint` that is not the prior value plus one day or one second, but a value
earlier than the prior one. -/
theorem TimePointUpdateTask.nextTask_beyond_range :
    TimePointUpdateTask.nextTask (TimePointUpdateTask.construct (.valid (2 ^ 63 - 1)) .Days) =
      (true, { timePoint := .valid (2 ^ 63 - 1), focusPoint := .Days,
               nextPoint := .valid (-2 ^ 63 + 86399999) }) ∧
    (QDateTime.valid (-2 ^ 63 + 86399999) ≠ .valid (2 ^ 63 - 1 + msecsPerDay)) ∧
    QDateTime.lt (.valid (-2 ^ 63 + 86399999)) (.valid (2 ^ 63 - 1)) = true ∧
    TimePointUpdateTask.nextTask (TimePointUpdateTask.construct (.valid (2 ^ 63 - 1)) .Seconds) =
      (true, { timePoint := .valid (2 ^ 63 - 1), focusPoint := .Seconds,
               nextPoint := .valid (-2 ^ 63 + 999) }) := by
  decide

/-- C11 (as amended): `TimePointUpdateTask::nextTask()`.  With the focus unit
`MilliSeconds` it returns false and changes nothing.  With any other focus unit `u` it
returns true, leaves `timePoint` and the focus unit as they are and sets `nextPoint`
to `TimeSpan(1, u).addToDateTime(nextPoint)`; this is the prior value plus one second,
minute, hour, day, week, month or year whenever that sum does not exceed the range
of the platform's millisecond count.  For `Days` the new value is then exactly one
calendar day later: the day number grows by one and the time of day is kept. -/
theorem TimePointUpdateTask.timePoint_nextTask_spec (t : TimePointUpdateTask) :
    (t.focusPoint = .MilliSeconds → TimePointUpdateTask.nextTask t = (false, t)) ∧
    (t.focusPoint ≠ .MilliSeconds →
      TimePointUpdateTask.nextTask t =
        (true, { timePoint := t.timePoint, focusPoint := t.focusPoint,
                 nextPoint := (TimeSpan.mk 1 t.focusPoint).addToDateTime t.nextPoint })) ∧
    (t.focusPoint ≠ .MilliSeconds → ∀ ms : Int, t.nextPoint = .valid ms → -2 ^ 63 ≤ ms →
      (TimeSpan.mk 1 t.focusPoint).exactResult ms < 2 ^ 63 →
      (TimePointUpdateTask.nextTask t).2.nextPoint =
        .valid ((TimeSpan.mk 1 t.focusPoint).exactResult ms)) ∧
    (t.focusPoint = .Days → ∀ ms : Int, t.nextPoint = .valid ms → -2 ^ 63 ≤ ms →
      ms + msecsPerDay < 2 ^ 63 →
      (TimePointUpdateTask.nextTask t).2.nextPoint = .valid (ms + msecsPerDay) ∧
      (ms + msecsPerDay) / msecsPerDay = ms / msecsPerDay + 1 ∧
      (ms + msecsPerDay) % msecsPerDay = ms % msecsPerDay) := by
  have hcore : t.focusPoint ≠ .MilliSeconds →
      TimePointUpdateTask.nextTask t =
        (true, { timePoint := t.timePoint, focusPoint := t.focusPoint,
                 nextPoint := (TimeSpan.mk 1 t.focusPoint).addToDateTime t.nextPoint }) := by
    obtain ⟨tp, u, np⟩ := t
    intro h
    cases u
    · exact absurd rfl h
    all_goals simp only [TimePointUpdateTask.nextTask, TimeSpan.addToDateTime, Prod.mk.injEq,
      true_and, TimePointUpdateTask.mk.injEq]
    all_goals (congr 1)
  have hexact : t.focusPoint ≠ .MilliSeconds → ∀ ms : Int, t.nextPoint = .valid ms →
      -2 ^ 63 ≤ ms → (TimeSpan.mk 1 t.focusPoint).exactResult ms < 2 ^ 63 →
      (TimePointUpdateTask.nextTask t).2.nextPoint =
        .valid ((TimeSpan.mk 1 t.focusPoint).exactResult ms) := by
    intro h ms hms hlo hhi
    rw [hcore h]
    simp only [hms]
    have hn : 0 ≤ (TimeSpan.mk 1 t.focusPoint).castCount := by
      cases t.focusPoint <;> decide
    exact (TimeSpan.addToDateTime_exact _ ms hlo hn hhi).1
  refine ⟨?_, hcore, hexact, ?_⟩
  · obtain ⟨tp, u, np⟩ := t
    intro h
    simp only at h
    subst h
    rfl
  · intro h ms hms hlo hhi
    have hne : t.focusPoint ≠ .MilliSeconds := by rw [h]; decide
    have hval : (TimeSpan.mk 1 t.focusPoint).exactResult ms = ms + msecsPerDay := by
      rw [h]
      have hc : (TimeSpan.mk 1 .Days).castCount = 1 := by decide
      simp only [TimeSpan.exactResult, hc, one_mul]
    refine ⟨?_, ?_, ?_⟩
    · rw [hexact hne ms hms hlo (by rw [hval]; exact hhi), hval]
    · unfold msecsPerDay; omega
    · unfold msecsPerDay; omega

/-- Witness for C11 (as amended): a daily task due on 2023-01-31 at noon moves to
2023-02-01 at noon. -/
theorem TimePointUpdateTask.timePoint_nextTask_spec_witness :
    (TimePointUpdateTask.nextTask
      (TimePointUpdateTask.construct (.valid 1675166400000) .Days)).2.nextPoint =
        .valid (1675166400000 + msecsPerDay) ∧
    getDateFromJulianDay (1675166400000 / msecsPerDay + epochJulianDay) = (2023, 1, 31) ∧
    getDateFromJulianDay ((1675166400000 + msecsPerDay) / msecsPerDay + epochJulianDay) =
      (2023, 2, 1) :=
  ⟨((TimePointUpdateTask.timePoint_nextTask_spec
      (TimePointUpdateTask.construct (.valid 1675166400000) .Days)).2.2.2 rfl
        1675166400000 rfl (by decide) (by decide)).1, by decide, by decide⟩

/-- `operator>=` of `QDateTime` is reflexive. -/
theorem QDateTime.ge_refl (a : QDateTime) : a.ge a = true := by
  cases a <;> simp [QDateTime.ge, QDateTime.lt]

/-- `operator>=` of `QDateTime` is transitive. -/
theorem QDateTime.ge_trans (a b c : QDateTime) (h1 : a.ge b = true) (h2 : b.ge c = true) :
    a.ge c = true := by
  cases a <;> cases b <;> cases c <;> simp [QDateTime.ge, QDateTime.lt] at h1 h2 ⊢
  omega

/-- One `nextTask()` call on a time-point task keeps `timePoint` and the focus unit,
and keeps `nextPoint` when the focus unit is `MilliSeconds`. -/
theorem TimePointUpdateTask.nextTask_step (t : TimePointUpdateTask) :
    (TimePointUpdateTask.nextTask t).2.timePoint = t.timePoint ∧
    (TimePointUpdateTask.nextTask t).2.focusPoint = t.focusPoint ∧
    (t.focusPoint = .MilliSeconds → (TimePointUpdateTask.nextTask t).2.nextPoint = t.nextPoint) := by
  obtain ⟨tp, u, np⟩ := t
  cases u <;> simp [TimePointUpdateTask.nextTask]

/-- With a focus unit `u` other than `MilliSeconds`, `nextTask()` sets `nextPoint` to
`TimeSpan(1, u).addToDateTime(nextPoint)`. -/
theorem TimePointUpdateTask.nextTask_nextPoint (t : TimePointUpdateTask)
    (h : t.focusPoint ≠ .MilliSeconds) :
    (TimePointUpdateTask.nextTask t).2.nextPoint =
      (TimeSpan.mk 1 t.focusPoint).addToDateTime t.nextPoint := by
  obtain ⟨tp, u, np⟩ := t
  cases u
  · exact absurd rfl h
  all_goals simp only [TimePointUpdateTask.nextTask, TimeSpan.addToDateTime]
  all_goals (congr 1)

/-- A `nextTask()` call that stays within the range of the platform does not move
`nextPoint` backward. -/
theorem TimePointUpdateTask.nextTask_ge (t : TimePointUpdateTask) (hfit : t.fits = true) :
    (TimePointUpdateTask.nextTask t).2.nextPoint.ge t.nextPoint = true := by
  by_cases hu : t.focusPoint = .MilliSeconds
  · rw [(TimePointUpdateTask.nextTask_step t).2.2 hu]
    exact QDateTime.ge_refl _
  · rw [TimePointUpdateTask.nextTask_nextPoint t hu]
    have hn : 0 ≤ (TimeSpan.mk 1 t.focusPoint).castCount := by
      cases t.focusPoint <;> decide
    unfold TimePointUpdateTask.fits at hfit
    cases hnp : t.nextPoint with
    | null =>
      generalize t.focusPoint = u
      cases u <;> rfl
    | invalid =>
      generalize t.focusPoint = u
      cases u <;> rfl
    | valid ms =>
      rw [hnp] at hfit
      simp only [hu, decide_False, Bool.false_or, decide_eq_true_eq] at hfit
      obtain ⟨h1, h2⟩ := TimeSpan.addToDateTime_exact _ ms hfit.1 hn hfit.2
      rw [h1]
      simp only [QDateTime.ge, QDateTime.lt, Bool.not_eq_true', decide_eq_false_iff_not, not_lt]
      exact h2

/-- `hasTasks()` leaves a time-point task as it is. -/
theorem TimePointUpdateTask.timePoint_hasTasks_snd (now : Int) (t : TimePointUpdateTask) :
    (TimePointUpdateTask.hasTasks now t).2 = t := by
  unfold TimePointUpdateTask.hasTasks
  split <;> rfl

/-- One call on a time-point task keeps `timePoint` and the focus unit, and keeps
`nextPoint` when the focus unit is `MilliSeconds`. -/
theorem TimePointUpdateTask.call_step (c : TimePointUpdateTask.Call) (t : TimePointUpdateTask) :
    (TimePointUpdateTask.call c t).timePoint = t.timePoint ∧
    (TimePointUpdateTask.call c t).focusPoint = t.focusPoint ∧
    (t.focusPoint = .MilliSeconds → (TimePointUpdateTask.call c t).nextPoint = t.nextPoint) := by
  cases c with
  | hasTasks now =>
    rw [TimePointUpdateTask.call, TimePointUpdateTask.timePoint_hasTasks_snd]
    exact ⟨rfl, rfl, fun _ => rfl⟩
  | currentTask => exact ⟨rfl, rfl, fun _ => rfl⟩
  | nextTask => exact TimePointUpdateTask.nextTask_step t
  | store => exact ⟨rfl, rfl, fun _ => rfl⟩

/-- A call that is not a `nextTask()` beyond the range of the platform does not move
`nextPoint` backward. -/
theorem TimePointUpdateTask.call_ge (c : TimePointUpdateTask.Call) (t : TimePointUpdateTask)
    (hfit : (!decide (c = .nextTask) || t.fits) = true) :
    (TimePointUpdateTask.call c t).nextPoint.ge t.nextPoint = true := by
  cases c with
  | hasTasks now =>
    rw [TimePointUpdateTask.call, TimePointUpdateTask.timePoint_hasTasks_snd]
    exact QDateTime.ge_refl _
  | currentTask => exact QDateTime.ge_refl _
  | nextTask => exact TimePointUpdateTask.nextTask_ge t (by simpa using hfit)
  | store => exact QDateTime.ge_refl _

/-- Every sequence of calls on a time-point task keeps `timePoint` and the focus unit,
and keeps `nextPoint` when the focus unit is `MilliSeconds`. -/
theorem TimePointUpdateTask.calls_members (cs : List TimePointUpdateTask.Call) :
    ∀ t : TimePointUpdateTask,
      (TimePointUpdateTask.calls cs t).timePoint = t.timePoint ∧
      (TimePointUpdateTask.calls cs t).focusPoint = t.focusPoint ∧
      (t.focusPoint = .MilliSeconds → (TimePointUpdateTask.calls cs t).nextPoint = t.nextPoint) := by
  induction cs with
  | nil =>
    intro t
    exact ⟨rfl, rfl, fun _ => rfl⟩
  | cons c cs ih =>
    intro t
    obtain ⟨s1, s2, s3⟩ := TimePointUpdateTask.call_step c t
    obtain ⟨r1, r2, r3⟩ := ih (TimePointUpdateTask.call c t)
    exact ⟨r1.trans s1, r2.trans s2, fun h => (r3 (s2.trans h)).trans (s3 h)⟩

/-- The invariant `nextPoint >= timePoint` of a time-point task is kept by every
sequence of calls whose `nextTask()` calls stay within the range of the platform. -/
theorem TimePointUpdateTask.calls_invariant (cs : List TimePointUpdateTask.Call) :
    ∀ t : TimePointUpdateTask, TimePointUpdateTask.callsFit cs t = true →
      t.nextPoint.ge t.timePoint = true →
      (TimePointUpdateTask.calls cs t).nextPoint.ge (TimePointUpdateTask.calls cs t).timePoint
        = true := by
  induction cs with
  | nil =>
    intro t _ h
    exact h
  | cons c cs ih =>
    intro t hfit h
    simp only [TimePointUpdateTask.callsFit, Bool.and_eq_true] at hfit
    apply ih (TimePointUpdateTask.call c t) hfit.2
    rw [(TimePointUpdateTask.call_step c t).1]
    exact QDateTime.ge_trans _ _ _ (TimePointUpdateTask.call_ge c t hfit.1) h

/-- The enumerator view of a task built from bytes has the members of the object. -/
theorem TimePointUpdateTask.Raw.task_members (unitValue : TimeUnit → Nat)
    (r : TimePointUpdateTask.Raw) (t : TimePointUpdateTask) (h : r.task unitValue = some t) :
    t.timePoint = r.timePoint ∧ t.nextPoint = r.nextPoint ∧
    TimeUnit.ofValue unitValue r.focusPoint = some t.focusPoint := by
  unfold TimePointUpdateTask.Raw.task at h
  simp only [Option.map_eq_some'] at h
  obtain ⟨u, hu, rfl⟩ := h
  exact ⟨rfl, rfl, hu⟩

/-- On a task built from bytes whose focus unit is an enumerator, a sequence of calls
is defined and acts as on the `TimePointUpdateTask` with that unit. -/
theorem TimePointUpdateTask.Raw.calls_of_task (unitValue : TimeUnit → Nat)
    (cs : List TimePointUpdateTask.Call) :
    ∀ (r : TimePointUpdateTask.Raw) (t : TimePointUpdateTask), r.task unitValue = some t →
      TimePointUpdateTask.Raw.calls unitValue cs r =
        some { timePoint := (TimePointUpdateTask.calls cs t).timePoint,
               focusPoint := r.focusPoint,
               nextPoint := (TimePointUpdateTask.calls cs t).nextPoint } := by
  induction cs with
  | nil =>
    intro r t h
    obtain ⟨h1, h2, -⟩ := TimePointUpdateTask.Raw.task_members unitValue r t h
    simp only [TimePointUpdateTask.Raw.calls, TimePointUpdateTask.calls, h1, h2]
  | cons c cs ih =>
    intro r t h
    obtain ⟨-, -, h3⟩ := TimePointUpdateTask.Raw.task_members unitValue r t h
    have hcall : TimePointUpdateTask.Raw.call unitValue c r =
        some { timePoint := (TimePointUpdateTask.call c t).timePoint,
               focusPoint := r.focusPoint,
               nextPoint := (TimePointUpdateTask.call c t).nextPoint } := by
      simp only [TimePointUpdateTask.Raw.call, h]
    have htask : TimePointUpdateTask.Raw.task unitValue
        { timePoint := (TimePointUpdateTask.call c t).timePoint,
          focusPoint := r.focusPoint,
          nextPoint := (TimePointUpdateTask.call c t).nextPoint } =
        some (TimePointUpdateTask.call c t) := by
      simp only [TimePointUpdateTask.Raw.task, h3, Option.map_some',
        ← (TimePointUpdateTask.call_step c t).2.1]
    simp only [TimePointUpdateTask.Raw.calls, hcall, Option.some_bind, TimePointUpdateTask.calls]
    exact ih _ _ htask

/-- On a task built from bytes whose focus unit is no enumerator, every sequence of
calls with defined behaviour leaves the object as it is. -/
theorem TimePointUpdateTask.Raw.calls_of_no_task (unitValue : TimeUnit → Nat)
    (cs : List TimePointUpdateTask.Call) (r s : TimePointUpdateTask.Raw)
    (h : r.task unitValue = none) (hs : TimePointUpdateTask.Raw.calls unitValue cs r = some s) :
    s = r := by
  induction cs with
  | nil =>
    simp only [TimePointUpdateTask.Raw.calls, Option.some.injEq] at hs
    exact hs.symm
  | cons c cs ih =>
    cases c <;> simp only [TimePointUpdateTask.Raw.calls, TimePointUpdateTask.Raw.call, h,
      Option.some_bind, Option.none_bind, reduceCtorEq] at hs
    all_goals exact ih hs

/-- The constructor from bytes sets `nextPoint` to `timePoint`. -/
theorem TimePointUpdateTask.Raw.fromBytes_nextPoint (data : QByteArray) :
    (TimePointUpdateTask.Raw.fromBytes data).nextPoint =
      (TimePointUpdateTask.Raw.fromBytes data).timePoint := by
  unfold TimePointUpdateTask.Raw.fromBytes
  rfl

/-- The value of `MilliSeconds` is read as `MilliSeconds`. -/
theorem TimeUnit.ofValue_milliSeconds (unitValue : TimeUnit → Nat) :
    TimeUnit.ofValue unitValue (unitValue .MilliSeconds) = some .MilliSeconds := by
  unfold TimeUnit.ofValue
  rw [if_pos rfl]

/-- On a task built from bytes in a state with `nextPoint = timePoint`, the invariant
holds after every sequence of calls with defined behaviour whose `nextTask()` calls
stay within the range of the platform, and `nextPoint` stays equal to `timePoint`
when the focus unit is `MilliSeconds`. -/
theorem TimePointUpdateTask.Raw.calls_invariant_raw (unitValue : TimeUnit → Nat)
    (cs : List TimePointUpdateTask.Call) (r s : TimePointUpdateTask.Raw)
    (hr : r.nextPoint = r.timePoint)
    (hs : TimePointUpdateTask.Raw.calls unitValue cs r = some s) :
    (TimePointUpdateTask.Raw.callsFit unitValue cs r = true →
      s.nextPoint.ge s.timePoint = true) ∧
    (s.focusPoint = unitValue .MilliSeconds → s.nextPoint = s.timePoint) := by
  cases ht : r.task unitValue with
  | none =>
    have hsr := TimePointUpdateTask.Raw.calls_of_no_task unitValue cs r s ht hs
    rw [hsr]
    exact ⟨fun _ => by rw [hr]; exact QDateTime.ge_refl _, fun _ => hr⟩
  | some t =>
    obtain ⟨h1, h2, h3⟩ := TimePointUpdateTask.Raw.task_members unitValue r t ht
    have hnp : t.nextPoint = t.timePoint := by rw [h1, h2, hr]
    rw [TimePointUpdateTask.Raw.calls_of_task unitValue cs r t ht, Option.some.injEq] at hs
    obtain ⟨m1, m2, m3⟩ := TimePointUpdateTask.calls_members cs t
    rw [← hs]
    refine ⟨fun hfit => ?_, fun hf => ?_⟩
    · unfold TimePointUpdateTask.Raw.callsFit at hfit
      rw [ht] at hfit
      exact TimePointUpdateTask.calls_invariant cs t hfit (by rw [hnp]; exact QDateTime.ge_refl _)
    · have hf2 : r.focusPoint = unitValue .MilliSeconds := hf
      have hu : t.focusPoint = .MilliSeconds := by
        rw [hf2, TimeUnit.ofValue_milliSeconds, Option.some.injEq] at h3
        exact h3.symm
      show (TimePointUpdateTask.calls cs t).nextPoint = (TimePointUpdateTask.calls cs t).timePoint
      rw [m3 hu, m1, hnp]

/-- On a task built from bytes whose focus unit is an enumerator every sequence of
calls is defined. -/
theorem TimePointUpdateTask.Raw.calls_defined (unitValue : TimeUnit → Nat)
    (cs : List TimePointUpdateTask.Call) (r : TimePointUpdateTask.Raw)
    (h : (r.task unitValue).isSome = true) :
    (TimePointUpdateTask.Raw.calls unitValue cs r).isSome = true := by
  obtain ⟨t, ht⟩ := Option.isSome_iff_exists.mp h
  rw [TimePointUpdateTask.Raw.calls_of_task unitValue cs r t ht]
  rfl

/-- Counterexample to C12 as stated: a task constructed at the last instant of the
platform's `qint64` millisecond count with the focus unit `Seconds`.  One `nextTask()`
call adds 1000 to the count, which wraps around: `nextPoint` is then earlier than
`timePoint`.  The same happens to the task read from the bytes that `store()` writes
for it. -/
theorem TimePointUpdateTask.nextPoint_before_timePoint :
    TimePointUpdateTask.calls [.nextTask]
        (TimePointUpdateTask.construct (.valid (2 ^ 63 - 1)) .Seconds) =
      { timePoint := .valid (2 ^ 63 - 1), focusPoint := .Seconds,
        nextPoint := .valid (-2 ^ 63 + 999) } ∧
    (TimePointUpdateTask.calls [.nextTask]
        (TimePointUpdateTask.construct (.valid (2 ^ 63 - 1)) .Seconds)).nextPoint.ge
      (TimePointUpdateTask.calls [.nextTask]
        (TimePointUpdateTask.construct (.valid (2 ^ 63 - 1)) .Seconds)).timePoint = false ∧
    TimePointUpdateTask.Raw.calls (TimeUnit.value 0 0) [.nextTask]
        (TimePointUpdateTask.Raw.fromBytes
          (TimePointUpdateTask.store (TimeUnit.value 0 0)
            (TimePointUpdateTask.construct (.valid (2 ^ 63 - 1)) .Seconds))) =
      some { timePoint := .valid (2 ^ 63 - 1), focusPoint := 1000,
             nextPoint := .valid (-2 ^ 63 + 999) } := by
  decide

/-- C12 (as amended): in every state that a sequence of `hasTasks()`, `currentTask()`,
`nextTask()` and `store()` calls reaches from a task made by either constructor (from
a time point and a focus unit, or from bytes), `nextPoint >= timePoint`, provided that
no `nextTask()` call of the sequence takes `nextPoint` beyond the range of the
platform's millisecond count; and with the focus unit `MilliSeconds`, `nextPoint`
stays equal to `timePoint`, whatever the calls are.  The constructor from bytes builds
a task for any bytes; on a task whose focus unit is an enumerator every sequence of
calls is defined. -/
theorem TimePointUpdateTask.nextPoint_ge_timePoint (cs : List TimePointUpdateTask.Call) :
    (∀ (timePoint : QDateTime) (repeatFocus : TimeUnit),
      TimePointUpdateTask.callsFit cs (TimePointUpdateTask.construct timePoint repeatFocus) = true →
      (TimePointUpdateTask.calls cs (TimePointUpdateTask.construct timePoint repeatFocus)).nextPoint.ge
        (TimePointUpdateTask.calls cs
          (TimePointUpdateTask.construct timePoint repeatFocus)).timePoint = true) ∧
    (∀ (timePoint : QDateTime) (repeatFocus : TimeUnit), repeatFocus = .MilliSeconds →
      (TimePointUpdateTask.calls cs
        (TimePointUpdateTask.construct timePoint repeatFocus)).nextPoint = timePoint) ∧
    (∀ (unitValue : TimeUnit → Nat) (data : QByteArray) (s : TimePointUpdateTask.Raw),
      TimePointUpdateTask.Raw.calls unitValue cs (TimePointUpdateTask.Raw.fromBytes data) = some s →
      (TimePointUpdateTask.Raw.callsFit unitValue cs (TimePointUpdateTask.Raw.fromBytes data) = true →
        s.nextPoint.ge s.timePoint = true) ∧
      (s.focusPoint = unitValue .MilliSeconds → s.nextPoint = s.timePoint)) ∧
    (∀ (unitValue : TimeUnit → Nat) (data : QByteArray),
      ((TimePointUpdateTask.Raw.fromBytes data).task unitValue).isSome = true →
      (TimePointUpdateTask.Raw.calls unitValue cs
        (TimePointUpdateTask.Raw.fromBytes data)).isSome = true) := by
  refine ⟨?_, ?_, ?_, ?_⟩
  · intro tp u hfit
    exact TimePointUpdateTask.calls_invariant cs (TimePointUpdateTask.construct tp u) hfit
      (QDateTime.ge_refl _)
  · intro tp u hu
    exact (TimePointUpdateTask.calls_members cs (TimePointUpdateTask.construct tp u)).2.2 hu
  · intro uv data s hs
    exact TimePointUpdateTask.Raw.calls_invariant_raw uv cs _ s
      (TimePointUpdateTask.Raw.fromBytes_nextPoint data) hs
  · intro uv data hsome
    exact TimePointUpdateTask.Raw.calls_defined uv cs _ hsome

/-- Witness for C12 (as amended): a task read from the 21 bytes of a stored weekly
task, advanced twice. -/
theorem TimePointUpdateTask.nextPoint_ge_timePoint_witness :
    TimePointUpdateTask.Raw.calls (TimeUnit.value 0 0)
        [.hasTasks 5, .nextTask, .store, .nextTask, .currentTask]
        (TimePointUpdateTask.Raw.fromBytes
          (TimePointUpdateTask.store (TimeUnit.value 0 0)
            (TimePointUpdateTask.construct (.valid 1000) .Weeks))) =
      some { timePoint := .valid 1000, focusPoint := 604800000,
             nextPoint := .valid 1209601000 } ∧
    (QDateTime.valid 1209601000).ge (.valid 1000) = true :=
  ⟨by decide,
   ((TimePointUpdateTask.nextPoint_ge_timePoint
      [.hasTasks 5, .nextTask, .store, .nextTask, .currentTask]).2.2.1
    (TimeUnit.value 0 0)
    (TimePointUpdateTask.store (TimeUnit.value 0 0)
      (TimePointUpdateTask.construct (.valid 1000) .Weeks))
    { timePoint := .valid 1000, focusPoint := 604800000, nextPoint := .valid 1209601000 }
    (by decide)).1 (by decide)⟩

/-- With pairwise different enumerator values every unit is recovered from its stored
value. -/
theorem TimeUnit.ofValue_value_ok (months years : Nat) (h : TimeUnit.ValuesOk months years)
    (u : TimeUnit) :
    TimeUnit.ofValue (TimeUnit.value months years) (TimeUnit.value months years u) = some u := by
  obtain ⟨-, -, hne, hm, hy⟩ := h
  simp only [List.mem_cons, List.mem_singleton, List.not_mem_nil, or_false, not_or] at hm hy
  obtain ⟨m1, m2, m3, m4, m5, m6⟩ := hm
  obtain ⟨y1, y2, y3, y4, y5, y6⟩ := hy
  cases u
  case Months =>
    simp only [TimeUnit.ofValue, TimeUnit.value]
    rw [if_neg (Ne.symm m1), if_neg (Ne.symm m2), if_neg (Ne.symm m3), if_neg (Ne.symm m4),
      if_neg (Ne.symm m5), if_neg (Ne.symm m6), if_pos trivial]
  case Years =>
    simp only [TimeUnit.ofValue, TimeUnit.value]
    rw [if_neg (Ne.symm y1), if_neg (Ne.symm y2), if_neg (Ne.symm y3), if_neg (Ne.symm y4),
      if_neg (Ne.symm y5), if_neg (Ne.symm y6), if_neg hne, if_pos trivial]
  all_goals simp [TimeUnit.ofValue, TimeUnit.value]

/-- With enumerator values that fit a `quint64` every stored unit value does. -/
theorem TimeUnit.value_lt (months years : Nat) (h : TimeUnit.ValuesOk months years)
    (u : TimeUnit) : TimeUnit.value months years u < 2 ^ 64 := by
  obtain ⟨h1, h2, -, -, -⟩ := h
  cases u <;> simp only [TimeUnit.value] <;> first | exact h1 | exact h2 | norm_num

/-- `nextTask()` calls do not change what `store()` writes. -/
theorem TimePointUpdateTask.store_nextTasks (unitValue : TimeUnit → Nat) (k : Nat) :
    ∀ t : TimePointUpdateTask,
      (TimePointUpdateTask.nextTasks k t).timePoint = t.timePoint ∧
      (TimePointUpdateTask.nextTasks k t).focusPoint = t.focusPoint ∧
      TimePointUpdateTask.store unitValue (TimePointUpdateTask.nextTasks k t) =
        TimePointUpdateTask.store unitValue t := by
  induction k with
  | zero => intro t; exact ⟨rfl, rfl, rfl⟩
  | succ k ih =>
    intro t
    obtain ⟨h1, h2, h3⟩ := ih (TimePointUpdateTask.nextTask t).2
    obtain ⟨s1, s2, -⟩ := TimePointUpdateTask.nextTask_step t
    refine ⟨h1.trans s1, h2.trans s2, ?_⟩
    show TimePointUpdateTask.store unitValue
      (TimePointUpdateTask.nextTasks k (TimePointUpdateTask.nextTask t).2) = _
    rw [h3]
    unfold TimePointUpdateTask.store
    rw [s1, s2]

/-- Reloading a stored time-point task, for every focus unit, when the enumerator
values are pairwise different. -/
theorem TimePointUpdateTask.timePoint_fromBytes_store_ok (months years : Nat)
    (hv : TimeUnit.ValuesOk months years) (t : TimePointUpdateTask)
    (htp : t.timePoint = .null ∨ ∃ ms : Int, t.timePoint = .valid ms ∧ -2 ^ 63 ≤ ms ∧ ms < 2 ^ 63) :
    TimePointUpdateTask.fromBytes (TimeUnit.value months years)
        (TimePointUpdateTask.store (TimeUnit.value months years) t) =
      some (TimePointUpdateTask.construct t.timePoint t.focusPoint) := by
  have hread : QDataStream.readQDateTime (QDataStream.writeQDateTime t.timePoint ++
      QDataStream.writeUInt64 (TimeUnit.value months years t.focusPoint)) =
      (t.timePoint, QDataStream.writeUInt64 (TimeUnit.value months years t.focusPoint)) := by
    rcases htp with h | ⟨ms, h, hlo, hhi⟩
    · rw [h]; exact QDataStream.readQDateTime_writeQDateTime_null _
    · rw [h]; exact QDataStream.readQDateTime_writeQDateTime_valid ms _ hlo hhi
  unfold TimePointUpdateTask.fromBytes TimePointUpdateTask.Raw.task
    TimePointUpdateTask.Raw.fromBytes TimePointUpdateTask.store
  rw [hread]
  dsimp only
  rw [← List.append_nil (QDataStream.writeUInt64 _),
    QDataStream.readUInt64_writeUInt64 _ _ (TimeUnit.value_lt months years hv _)]
  dsimp only
  rw [TimeUnit.ofValue_value_ok months years hv]
  rfl

/-- C13: what `store()` writes for a time-point task is not changed by any number of
`nextTask()` calls, and the task reconstructed from it has the same `timePoint` and
focus unit and `nextPoint = timePoint`: `currentTask()` of the reloaded task is the
original anchor, however far the stored task had advanced. -/
theorem TimePointUpdateTask.store_keeps_anchor (months years : Nat) (t : TimePointUpdateTask)
    (k : Nat) :
    TimePointUpdateTask.store (TimeUnit.value months years) (TimePointUpdateTask.nextTasks k t) =
      TimePointUpdateTask.store (TimeUnit.value months years) t ∧
    (TimeUnit.ValuesOk months years →
      (t.timePoint = .null ∨ ∃ ms : Int, t.timePoint = .valid ms ∧ -2 ^ 63 ≤ ms ∧ ms < 2 ^ 63) →
      ∃ r : TimePointUpdateTask,
        TimePointUpdateTask.fromBytes (TimeUnit.value months years)
          (TimePointUpdateTask.store (TimeUnit.value months years)
            (TimePointUpdateTask.nextTasks k t)) = some r ∧
        r.timePoint = t.timePoint ∧ r.focusPoint = t.focusPoint ∧ r.nextPoint = t.timePoint ∧
        r.currentTask = t.timePoint) := by
  have hs := (TimePointUpdateTask.store_nextTasks (TimeUnit.value months years) k t).2.2
  refine ⟨hs, ?_⟩
  intro hv htp
  refine ⟨TimePointUpdateTask.construct t.timePoint t.focusPoint, ?_, rfl, rfl, rfl, rfl⟩
  rw [hs]
  exact TimePointUpdateTask.timePoint_fromBytes_store_ok months years hv t htp

/-- Witness for C13: a monthly task anchored at instant 1000, advanced three times,
stored and reloaded. -/
theorem TimePointUpdateTask.store_keeps_anchor_witness :
    ∃ r : TimePointUpdateTask,
      TimePointUpdateTask.fromBytes (TimeUnit.value 2592000000 31536000000)
        (TimePointUpdateTask.store (TimeUnit.value 2592000000 31536000000)
          (TimePointUpdateTask.nextTasks 3
            (TimePointUpdateTask.construct (.valid 1000) .Months))) = some r ∧
      r.timePoint = .valid 1000 ∧ r.focusPoint = .Months ∧ r.nextPoint = .valid 1000 ∧
      r.currentTask = .valid 1000 :=
  (TimePointUpdateTask.store_keeps_anchor 2592000000 31536000000
    (TimePointUpdateTask.construct (.valid 1000) .Months) 3).2
    (by unfold TimeUnit.ValuesOk; decide)
    (Or.inr ⟨1000, rfl, by decide, by decide⟩)

/-- Reloading a stored interval task, for every unit of the pause span, when the
enumerator values are pairwise different. -/
theorem BasicLoopUpdateTask.loop_fromBytes_store_ok (months years : Nat)
    (hv : TimeUnit.ValuesOk months years) (initReps : Int)
    (t : BasicLoopUpdateTask) (hc : t.loopDelta.count < 2 ^ 64) :
    BasicLoopUpdateTask.fromBytes (TimeUnit.value months years) initReps
        (BasicLoopUpdateTask.store (TimeUnit.value months years) t) =
      some { base := { nextPoint := .null, repetitionsLeft := initReps },
             loopDelta := t.loopDelta, repCount := toInt64 t.base.repetitionsLeft } := by
  unfold BasicLoopUpdateTask.fromBytes BasicLoopUpdateTask.Raw.task
    BasicLoopUpdateTask.Raw.fromBytes BasicLoopUpdateTask.store
  rw [QDataStream.readTimeSpan_writeTimeSpan _ t.loopDelta _ hc
    (TimeUnit.value_lt months years hv _)]
  dsimp only
  rw [← List.append_nil (QDataStream.writeInt64 _), QDataStream.readInt64_writeInt64,
    TimeUnit.ofValue_value_ok months years hv]
  rfl

/-- The first `k` calls of `nextTask()` on a loop task with more than `k` repetitions
left all return true and take `k` off the counter; the pause span stays. -/
theorem BasicLoopUpdateTask.nextTaskRun_advance (clocks : List Int) :
    ∀ t : BasicLoopUpdateTask, (clocks.length : Int) < t.base.repetitionsLeft →
      (BasicLoopUpdateTask.nextTaskRun clocks t).1 = List.replicate clocks.length true ∧
      (BasicLoopUpdateTask.nextTaskRun clocks t).2.base.repetitionsLeft =
        t.base.repetitionsLeft - clocks.length ∧
      (BasicLoopUpdateTask.nextTaskRun clocks t).2.loopDelta = t.loopDelta := by
  induction clocks with
  | nil => intro t _; simp [BasicLoopUpdateTask.nextTaskRun]
  | cons c cs ih =>
    intro t h
    simp only [List.length_cons, Nat.cast_add, Nat.cast_one] at h
    have hs := BasicLoopUpdateTask.nextTask_of_many c t (by omega)
    have hd : (BasicLoopUpdateTask.nextTask c t).2.loopDelta = t.loopDelta := rfl
    obtain ⟨r1, r2, r3⟩ := ih (BasicLoopUpdateTask.nextTask c t).2 (by rw [hs.2]; omega)
    simp only [BasicLoopUpdateTask.nextTaskRun, hs.1, r1, r2, r3, hs.2, hd, List.length_cons,
      List.replicate_succ, Nat.cast_add, Nat.cast_one, true_and, and_true]
    omega

/-- C14: the interval task reconstructed from `store()` has the same pause span and,
as configured repeat count, the `repetitionsLeft` of the stored task at the time of
the call.  So a task configured with `n` repetitions that was initialised and then
advanced by `k < n` successful `nextTask()` calls reloads with `n - k` occurrences,
and a task whose counter is `-1` reloads as an infinite task. -/
theorem BasicLoopUpdateTask.store_keeps_remaining (months years : Nat) (initReps : Int)
    (hv : TimeUnit.ValuesOk months years) :
    (∀ t : BasicLoopUpdateTask, t.loopDelta.count < 2 ^ 64 →
      -2 ^ 63 ≤ t.base.repetitionsLeft → t.base.repetitionsLeft < 2 ^ 63 →
      BasicLoopUpdateTask.fromBytes (TimeUnit.value months years) initReps
          (BasicLoopUpdateTask.store (TimeUnit.value months years) t) =
        some { base := { nextPoint := .null, repetitionsLeft := initReps },
               loopDelta := t.loopDelta, repCount := t.base.repetitionsLeft }) ∧
    (∀ (t : BasicLoopUpdateTask) (n : Nat) (now0 : Int) (clocks : List Int),
      t.loopDelta.count < 2 ^ 64 → t.base.nextPoint = .null → t.repCount = (n : Int) →
      n < 2 ^ 63 → clocks.length < n →
      (BasicLoopUpdateTask.nextTaskRun clocks (BasicLoopUpdateTask.hasTasks now0 t).2).1 =
        List.replicate clocks.length true ∧
      BasicLoopUpdateTask.fromBytes (TimeUnit.value months years) initReps
          (BasicLoopUpdateTask.store (TimeUnit.value months years)
            (BasicLoopUpdateTask.nextTaskRun clocks (BasicLoopUpdateTask.hasTasks now0 t).2).2) =
        some { base := { nextPoint := .null, repetitionsLeft := initReps },
               loopDelta := t.loopDelta, repCount := (n : Int) - clocks.length }) ∧
    (∀ t : BasicLoopUpdateTask, t.loopDelta.count < 2 ^ 64 → t.base.repetitionsLeft = -1 →
      BasicLoopUpdateTask.fromBytes (TimeUnit.value months years) initReps
          (BasicLoopUpdateTask.store (TimeUnit.value months years) t) =
        some { base := { nextPoint := .null, repetitionsLeft := initReps },
               loopDelta := t.loopDelta, repCount := -1 }) := by
  have main : ∀ t : BasicLoopUpdateTask, t.loopDelta.count < 2 ^ 64 →
      -2 ^ 63 ≤ t.base.repetitionsLeft → t.base.repetitionsLeft < 2 ^ 63 →
      BasicLoopUpdateTask.fromBytes (TimeUnit.value months years) initReps
          (BasicLoopUpdateTask.store (TimeUnit.value months years) t) =
        some { base := { nextPoint := .null, repetitionsLeft := initReps },
               loopDelta := t.loopDelta, repCount := t.base.repetitionsLeft } := by
    intro t hc h1 h2
    rw [BasicLoopUpdateTask.loop_fromBytes_store_ok months years hv initReps t hc,
      toInt64_of_range _ h1 h2]
  refine ⟨main, ?_, ?_⟩
  · intro t n now0 clocks hc hnull hrep hn hk
    have hinit : (BasicLoopUpdateTask.hasTasks now0 t).2.base.repetitionsLeft = (n : Int) := by
      simp [BasicLoopUpdateTask.hasTasks, LoopUpdateTask.hasTasks_snd, hnull, QDateTime.isNull,
        BasicLoopUpdateTask.repetitions, hrep]
    have hdelta : (BasicLoopUpdateTask.hasTasks now0 t).2.loopDelta = t.loopDelta := rfl
    obtain ⟨r1, r2, r3⟩ := BasicLoopUpdateTask.nextTaskRun_advance clocks
      (BasicLoopUpdateTask.hasTasks now0 t).2 (by rw [hinit]; omega)
    refine ⟨r1, ?_⟩
    rw [main _ (by rw [r3, hdelta]; exact hc) (by rw [r2, hinit]; omega)
      (by rw [r2, hinit]; omega), r2, r3, hinit, hdelta]
  · intro t hc hinf
    rw [main t hc (by rw [hinf]; norm_num) (by rw [hinf]; norm_num), hinf]

/-- Witness for C14: 5 repetitions every 2 months, initialised at clock 0 and advanced
twice, reload with 3 repetitions. -/
theorem BasicLoopUpdateTask.store_keeps_remaining_witness :
    BasicLoopUpdateTask.fromBytes (TimeUnit.value 2592000000 31536000000) 0
        (BasicLoopUpdateTask.store (TimeUnit.value 2592000000 31536000000)
          (BasicLoopUpdateTask.nextTaskRun [10, 20]
            (BasicLoopUpdateTask.hasTasks 0
              (BasicLoopUpdateTask.construct 0 ⟨2, .Months⟩ 5)).2).2) =
      some { base := { nextPoint := .null, repetitionsLeft := 0 },
             loopDelta := ⟨2, .Months⟩, repCount := ((5 : Nat) : Int) - ([10, 20] : List Int).length } :=
  ((BasicLoopUpdateTask.store_keeps_remaining 2592000000 31536000000 0
      (by unfold TimeUnit.ValuesOk; decide)).2.1
    (BasicLoopUpdateTask.construct 0 ⟨2, .Months⟩ 5) 5 0 [10, 20]
    (by decide) rfl rfl (by decide) (by decide)).2

/-- A date and a time of day never give the null value. -/
theorem QDateTime.ofDate_isNull (jd tod : Int) : (QDateTime.ofDate jd tod).isNull = false := by
  unfold QDateTime.ofDate
  split <;> rfl

/-- The due time computed from a clock value is never the null value. -/
theorem TimeSpan.addToDateTime_valid (p : TimeSpan) (now : Int) :
    (p.addToDateTime (.valid now)).isNull = false := by
  obtain ⟨count, unit⟩ := p
  cases unit
  · rfl
  · rfl
  · rfl
  · rfl
  all_goals exact QDateTime.ofDate_isNull _ _

/-- C16: once an initialised loop task (its `nextPoint` is set) has
`repetitionsLeft = 0`, every later call of `hasTasks()` or `nextTask()`, at any clock
value, returns false and leaves the object as it is, so `repetitionsLeft` stays 0. -/
theorem LoopUpdateTask.exhausted_forever (repetitions : Int) (pauseSpan : TimeSpan)
    (s : LoopUpdateTask) (hinit : s.nextPoint.isNull = false) (hzero : s.repetitionsLeft = 0)
    (cs : List LoopUpdateTask.Call) :
    LoopUpdateTask.calls repetitions pauseSpan cs s = (List.replicate cs.length false, s) ∧
    (LoopUpdateTask.calls repetitions pauseSpan cs s).2.repetitionsLeft = 0 := by
  have hstep : ∀ c, LoopUpdateTask.call repetitions pauseSpan c s = (false, s) := by
    intro c
    cases c with
    | hasTasks now =>
      have h2 := LoopUpdateTask.hasTasks_snd repetitions pauseSpan now s
      rw [if_neg (by simp [hinit])] at h2
      have h1 := LoopUpdateTask.hasTasks_fst repetitions pauseSpan now s
      rw [h2, hzero] at h1
      simp only [bne_self_eq_false, Bool.and_false] at h1
      exact Prod.ext h1 h2
    | nextTask now =>
      simp [LoopUpdateTask.call, LoopUpdateTask.nextTask, hzero]
  have hall : LoopUpdateTask.calls repetitions pauseSpan cs s =
      (List.replicate cs.length false, s) := by
    induction cs with
    | nil => rfl
    | cons c cs ih =>
      simp only [LoopUpdateTask.calls, hstep c, ih, List.length_cons, List.replicate_succ]
  rw [hall]
  exact ⟨rfl, hzero⟩

/-- Witness for C16: an exhausted task polled and advanced at growing clock values. -/
theorem LoopUpdateTask.exhausted_forever_witness :
    LoopUpdateTask.calls 3 ⟨10, .Seconds⟩
        [.hasTasks 0, .nextTask 5, .hasTasks 20000, .nextTask 30000] ⟨.valid 10000, 0⟩ =
      (List.replicate
          ([.hasTasks 0, .nextTask 5, .hasTasks 20000, .nextTask 30000] :
            List LoopUpdateTask.Call).length false,
        ⟨.valid 10000, 0⟩) :=
  (LoopUpdateTask.exhausted_forever 3 ⟨10, .Seconds⟩ ⟨.valid 10000, 0⟩ rfl rfl
    [.hasTasks 0, .nextTask 5, .hasTasks 20000, .nextTask 30000]).1

/-- C19: a loop task with repeat count `-1` has a single due time.  After the first
`hasTasks()` call has set `nextPoint`, no sequence of `hasTasks()` and `nextTask()`
calls changes the object; `nextTask()` returns true every time and `hasTasks()` at
clock `now` returns `nextPoint > now`.  So with a clock that does not go back, once
`hasTasks()` has returned false it returns false at every later clock value. -/
theorem LoopUpdateTask.infinite_single_due_time (pauseSpan : TimeSpan) (s : LoopUpdateTask)
    (now0 : Int) (hnull : s.nextPoint = .null) :
    (LoopUpdateTask.hasTasks (-1) pauseSpan now0 s).2 =
      { nextPoint := pauseSpan.addToDateTime (.valid now0), repetitionsLeft := -1 } ∧
    (∀ cs : List LoopUpdateTask.Call,
      LoopUpdateTask.calls (-1) pauseSpan cs (LoopUpdateTask.hasTasks (-1) pauseSpan now0 s).2 =
        (cs.map (fun c =>
            match c with
            | .hasTasks now => (pauseSpan.addToDateTime (.valid now0)).gt (.valid now)
            | .nextTask _ => true),
          (LoopUpdateTask.hasTasks (-1) pauseSpan now0 s).2)) ∧
    (∀ now1 now2 : Int, now1 ≤ now2 →
      (LoopUpdateTask.hasTasks (-1) pauseSpan now1
        (LoopUpdateTask.hasTasks (-1) pauseSpan now0 s).2).1 = false →
      (LoopUpdateTask.hasTasks (-1) pauseSpan now2
        (LoopUpdateTask.hasTasks (-1) pauseSpan now0 s).2).1 = false ∧
      (LoopUpdateTask.nextTask pauseSpan now2
        (LoopUpdateTask.hasTasks (-1) pauseSpan now0 s).2).1 = true) := by
  have hs1 : (LoopUpdateTask.hasTasks (-1) pauseSpan now0 s).2 =
      { nextPoint := pauseSpan.addToDateTime (.valid now0), repetitionsLeft := -1 } := by
    rw [LoopUpdateTask.hasTasks_snd, hnull]
    rfl
  rw [hs1]
  have hnn : (pauseSpan.addToDateTime (.valid now0)).isNull = false :=
    TimeSpan.addToDateTime_valid pauseSpan now0
  have hhas : ∀ now, LoopUpdateTask.hasTasks (-1) pauseSpan now
      { nextPoint := pauseSpan.addToDateTime (.valid now0), repetitionsLeft := -1 } =
      ((pauseSpan.addToDateTime (.valid now0)).gt (.valid now),
        { nextPoint := pauseSpan.addToDateTime (.valid now0), repetitionsLeft := -1 }) := by
    intro now
    have h2 := LoopUpdateTask.hasTasks_snd (-1) pauseSpan now
      { nextPoint := pauseSpan.addToDateTime (.valid now0), repetitionsLeft := -1 }
    rw [if_neg (by simp [hnn])] at h2
    have h1 := LoopUpdateTask.hasTasks_fst (-1) pauseSpan now
      { nextPoint := pauseSpan.addToDateTime (.valid now0), repetitionsLeft := -1 }
    rw [h2] at h1
    simp only [Int.reduceNeg, bne_iff_ne, ne_eq, Int.reduceEq, not_false_eq_true,
      Bool.and_true, reduceCtorEq] at h1
    exact Prod.ext (by rw [h1]; simp) h2
  have hnext : ∀ now, LoopUpdateTask.nextTask pauseSpan now
      { nextPoint := pauseSpan.addToDateTime (.valid now0), repetitionsLeft := -1 } =
      (true, { nextPoint := pauseSpan.addToDateTime (.valid now0), repetitionsLeft := -1 }) := by
    intro now
    simp [LoopUpdateTask.nextTask]
  refine ⟨rfl, ?_, ?_⟩
  · intro cs
    induction cs with
    | nil => rfl
    | cons c cs ih =>
      cases c with
      | hasTasks now =>
        simp only [LoopUpdateTask.calls, LoopUpdateTask.call, hhas now, ih, List.map_cons]
      | nextTask now =>
        simp only [LoopUpdateTask.calls, LoopUpdateTask.call, hnext now, ih, List.map_cons]
  · intro now1 now2 hle hfalse
    rw [hhas now1] at hfalse
    rw [hhas now2, hnext now2]
    refine ⟨?_, rfl⟩
    simp only at hfalse ⊢
    cases hd : pauseSpan.addToDateTime (.valid now0) with
    | null => rfl
    | invalid => rfl
    | valid d =>
      rw [hd] at hfalse
      simp only [QDateTime.gt, QDateTime.lt, decide_eq_false_iff_not, not_lt] at hfalse ⊢
      omega

/-- Witness for C19: a 10 s infinite task initialised at clock 0 is due at 10000 and
stays so; polled at 10000 and at 50000 it answers false while `nextTask()` answers
true. -/
theorem LoopUpdateTask.infinite_single_due_time_witness :
    (LoopUpdateTask.hasTasks (-1) ⟨10, .Seconds⟩ 50000
      (LoopUpdateTask.hasTasks (-1) ⟨10, .Seconds⟩ 0 ⟨.null, 0⟩).2).1 = false ∧
    (LoopUpdateTask.nextTask ⟨10, .Seconds⟩ 50000
      (LoopUpdateTask.hasTasks (-1) ⟨10, .Seconds⟩ 0 ⟨.null, 0⟩).2).1 = true :=
  (LoopUpdateTask.infinite_single_due_time ⟨10, .Seconds⟩ ⟨.null, 0⟩ 0 rfl).2.2
    10000 50000 (by decide)
    (by simp [LoopUpdateTask.hasTasks, LoopUpdateTask.startDelay, TimeSpan.addToDateTime,
      QDateTime.addSecs, QDateTime.isNull, QDateTime.gt, QDateTime.lt, toInt64])

namespace UpdateTaskList

variable {τ : Type} [UpdateTask τ]

/-- The eviction loop returns false exactly when it leaves the list empty, and a list
it leaves non-empty starts with an element whose `hasTasks()` was true. -/
theorem evict_false_iff (now : Int) (l : List τ) :
    ((evict now l).1 = false ↔ (evict now l).2 = []) := by
  induction l with
  | nil => simp [evict]
  | cons t rest ih =>
    by_cases h : (UpdateTask.hasTasks now t).1 = true
    · simp [evict, h]
    · simp only [Bool.not_eq_true] at h
      simp only [evict, h, Bool.false_eq_true, if_false]
      exact ih

/-- `UpdateTaskList::nextTask` returns false exactly when it leaves the list empty. -/
theorem nextTask_false_iff (now : Int) (l : List τ) :
    ((nextTask now l).1 = false ↔ (nextTask now l).2 = []) := by
  cases l with
  | nil => simp [nextTask]
  | cons t rest =>
    by_cases h : (UpdateTask.nextTask now t).1 = true
    · simp [nextTask, h]
    · simp only [Bool.not_eq_true] at h
      simp only [nextTask, h, Bool.false_eq_true, if_false]
      exact evict_false_iff now _

/-- `UpdateTaskList::hasTasks` returns false exactly when it leaves the list empty. -/
theorem hasTasks_false_iff (now : Int) (l : List τ) :
    ((hasTasks now l).1 = false ↔ (hasTasks now l).2 = []) := by
  cases l with
  | nil => simp [hasTasks]
  | cons t rest =>
    by_cases h : (UpdateTask.hasTasks now t).1 = true
    · simp [hasTasks, h]
    · simp only [Bool.not_eq_true] at h
      simp only [hasTasks, h, Bool.false_eq_true, if_false]
      exact nextTask_false_iff now _

/-- C18: `UpdateTaskList::nextTask()` returns false if and only if the list is empty
after the call, and so does `UpdateTaskList::hasTasks()`.  When either returns true
the list is not empty and `currentTask()` is the first element's; when either returns
false `currentTask()` is the null timestamp. -/
theorem false_iff_empty (now : Int) (l : List τ) :
    ((nextTask now l).1 = false ↔ (nextTask now l).2 = []) ∧
    ((hasTasks now l).1 = false ↔ (hasTasks now l).2 = []) ∧
    ((nextTask now l).1 = true → ∃ h tl, (nextTask now l).2 = h :: tl ∧
      currentTask (nextTask now l).2 = UpdateTask.currentTask h) ∧
    ((hasTasks now l).1 = true → ∃ h tl, (hasTasks now l).2 = h :: tl ∧
      currentTask (hasTasks now l).2 = UpdateTask.currentTask h) ∧
    ((nextTask now l).1 = false → currentTask (nextTask now l).2 = QDateTime.null) ∧
    ((hasTasks now l).1 = false → currentTask (hasTasks now l).2 = QDateTime.null) := by
  have hn := nextTask_false_iff now l
  have hh := hasTasks_false_iff now l
  refine ⟨hn, hh, ?_, ?_, ?_, ?_⟩
  · intro h
    cases hl : (nextTask now l).2 with
    | nil => rw [hn.2 hl] at h; exact absurd h (by simp)
    | cons a tl => exact ⟨a, tl, rfl, rfl⟩
  · intro h
    cases hl : (hasTasks now l).2 with
    | nil => rw [hh.2 hl] at h; exact absurd h (by simp)
    | cons a tl => exact ⟨a, tl, rfl, rfl⟩
  · intro h
    rw [hn.1 h]
    rfl
  · intro h
    rw [hh.1 h]
    rfl

/-- Witness for C18: an exhausted task followed by an infinite one. -/
theorem false_iff_empty_witness :
    ∃ h tl,
      (nextTask 20000
        [(⟨⟨.valid 10000, 1⟩, ⟨10, .Seconds⟩, 1⟩ : BasicLoopUpdateTask),
         BasicLoopUpdateTask.construct 0 ⟨10, .Seconds⟩ (-1)]).2 = h :: tl ∧
      currentTask (nextTask 20000
        [(⟨⟨.valid 10000, 1⟩, ⟨10, .Seconds⟩, 1⟩ : BasicLoopUpdateTask),
         BasicLoopUpdateTask.construct 0 ⟨10, .Seconds⟩ (-1)]).2 = UpdateTask.currentTask h :=
  (false_iff_empty 20000
    [(⟨⟨.valid 10000, 1⟩, ⟨10, .Seconds⟩, 1⟩ : BasicLoopUpdateTask),
     BasicLoopUpdateTask.construct 0 ⟨10, .Seconds⟩ (-1)]).2.2.1 (by decide)

/-- C20: a list whose first element is a `TimePointUpdateTask` with the focus unit
`MilliSeconds` and `timePoint > now`: `nextTask()` at clock `now` returns true and
leaves the list, its first element and `currentTask()` as they were, although the
first element's own `nextTask()` returned false. -/
theorem pending_single_shot_kept (now : Int) (p : TimePointUpdateTask) (rest : List AnyTask)
    (hms : p.focusPoint = .MilliSeconds) (hdue : p.timePoint.gt (.valid now) = true) :
    nextTask now (AnyTask.point p :: rest) = (true, AnyTask.point p :: rest) ∧
    currentTask (nextTask now (AnyTask.point p :: rest)).2 =
      currentTask (AnyTask.point p :: rest) ∧
    (TimePointUpdateTask.nextTask p).1 = false ∧
    (UpdateTask.nextTask now (AnyTask.point p)).1 = false := by
  have hnext : TimePointUpdateTask.nextTask p = (false, p) := by
    obtain ⟨tp, u, np⟩ := p
    simp only at hms
    subst hms
    rfl
  have hhas : TimePointUpdateTask.hasTasks now p = (true, p) := by
    simp [TimePointUpdateTask.hasTasks, hms, hdue]
  have hlist : nextTask now (AnyTask.point p :: rest) = (true, AnyTask.point p :: rest) := by
    simp [nextTask, evict, UpdateTask.nextTask, UpdateTask.hasTasks, hnext, hhas]
  refine ⟨hlist, by rw [hlist], by rw [hnext], ?_⟩
  simp [UpdateTask.nextTask, hnext]

/-- Witness for C20: a single-shot task due at 5000, ahead of an interval task, polled
at clock 1000. -/
theorem pending_single_shot_kept_witness :
    nextTask 1000
        [AnyTask.point (TimePointUpdateTask.construct (.valid 5000) .MilliSeconds),
         AnyTask.loop (BasicLoopUpdateTask.construct 0 ⟨10, .Seconds⟩ 3)] =
      (true, [AnyTask.point (TimePointUpdateTask.construct (.valid 5000) .MilliSeconds),
              AnyTask.loop (BasicLoopUpdateTask.construct 0 ⟨10, .Seconds⟩ 3)]) :=
  (pending_single_shot_kept 1000 (TimePointUpdateTask.construct (.valid 5000) .MilliSeconds)
    [AnyTask.loop (BasicLoopUpdateTask.construct 0 ⟨10, .Seconds⟩ 3)] rfl (by decide)).1

end UpdateTaskList

namespace UpdateTaskList

variable {τ : Type} [UpdateTask τ]

/-- The eviction loop only takes elements off the front: what it leaves is, object by
object, a suffix of the list, and everything behind the first element it leaves is
untouched.  The number of elements taken off is the number of leading elements whose
`hasTasks()` is false. -/
theorem evict_suffix {ι : Type} (ident : τ → ι)
    (hid : ∀ (now : Int) (t : τ), ident (UpdateTask.hasTasks now t).2 = ident t)
    (now : Int) (l : List τ) :
    ((evict now l).2.map ident) <:+ (l.map ident) ∧
    (evict now l).2.tail <:+ l.tail ∧
    (evict now l).2.length +
      (l.takeWhile (fun t => !(UpdateTask.hasTasks now t).1)).length = l.length := by
  induction l with
  | nil => simp [evict]
  | cons t rest ih =>
    by_cases h : (UpdateTask.hasTasks now t).1 = true
    · simp [evict, h, hid, List.takeWhile]
    · simp only [Bool.not_eq_true] at h
      simp only [evict, h, Bool.false_eq_true, if_false, List.map_cons, List.tail_cons,
        List.takeWhile, Bool.not_false, List.length_cons]
      obtain ⟨i1, i2, i3⟩ := ih
      refine ⟨i1.trans (List.suffix_cons _ _), i2.trans (List.tail_suffix _), by omega⟩

/-- C17: the eviction loop of `UpdateTaskList::nextTask()` is bounded and keeps the
order.  On a list of length `n` the calls `nextTask()` and `hasTasks()` return, having
taken at most `n` elements off the list; the list they leave is, object by object
(`ident` names the object, which no call on it changes), a suffix of the list before
the call, and the elements behind its first element are untouched. -/
theorem suffix_after_call {ι : Type} (ident : τ → ι)
    (hid : ∀ (now : Int) (t : τ), ident (UpdateTask.hasTasks now t).2 = ident t ∧
      ident (UpdateTask.nextTask now t).2 = ident t)
    (now : Int) (l : List τ) :
    (((nextTask now l).2.map ident) <:+ (l.map ident) ∧
      (nextTask now l).2.tail <:+ l.tail ∧
      ∃ removed : Nat, removed ≤ l.length ∧ (nextTask now l).2.length + removed = l.length) ∧
    (((hasTasks now l).2.map ident) <:+ (l.map ident) ∧
      (hasTasks now l).2.tail <:+ l.tail ∧
      ∃ removed : Nat, removed ≤ l.length ∧ (hasTasks now l).2.length + removed = l.length) := by
  have hidh : ∀ (now : Int) (t : τ), ident (UpdateTask.hasTasks now t).2 = ident t :=
    fun now t => (hid now t).1
  have hnext : ∀ l : List τ, ((nextTask now l).2.map ident) <:+ (l.map ident) ∧
      (nextTask now l).2.tail <:+ l.tail ∧
      ∃ removed : Nat, removed ≤ l.length ∧ (nextTask now l).2.length + removed = l.length := by
    intro l
    cases l with
    | nil => exact ⟨by simp [nextTask], by simp [nextTask], 0, by simp [nextTask]⟩
    | cons t rest =>
      by_cases h : (UpdateTask.nextTask now t).1 = true
      · refine ⟨by simp [nextTask, h, (hid now t).2], by simp [nextTask, h], 0, ?_⟩
        simp [nextTask, h]
      · simp only [Bool.not_eq_true] at h
        obtain ⟨e1, e2, e3⟩ := evict_suffix ident hidh now ((UpdateTask.nextTask now t).2 :: rest)
        simp only [nextTask, h, Bool.false_eq_true, if_false]
        refine ⟨?_, ?_, _, ?_, e3⟩
        · simpa [(hid now t).2] using e1
        · simpa using e2
        · exact (List.takeWhile_sublist _).length_le
  refine ⟨hnext l, ?_⟩
  cases l with
  | nil => exact ⟨by simp [hasTasks], by simp [hasTasks], 0, by simp [hasTasks]⟩
  | cons t rest =>
    by_cases h : (UpdateTask.hasTasks now t).1 = true
    · refine ⟨by simp [hasTasks, h, hidh], by simp [hasTasks, h], 0, ?_⟩
      simp [hasTasks, h]
    · simp only [Bool.not_eq_true] at h
      obtain ⟨n1, n2, n3⟩ := hnext ((UpdateTask.hasTasks now t).2 :: rest)
      simp only [hasTasks, h, Bool.false_eq_true, if_false]
      refine ⟨?_, ?_, ?_⟩
      · simpa [hidh] using n1
      · simpa using n2
      · simpa using n3

/-- Witness for C17: in a list of three tasks at the addresses 1, 2 and 3 whose first
two are exhausted, `nextTask()` leaves the task at address 3. -/
theorem suffix_after_call_witness :
    ((nextTask 20000
        [((1 : Nat), AnyTask.loop ⟨⟨.valid 10000, 1⟩, ⟨10, .Seconds⟩, 1⟩),
         (2, AnyTask.point (TimePointUpdateTask.construct (.valid 5) .MilliSeconds)),
         (3, AnyTask.loop (BasicLoopUpdateTask.construct 0 ⟨10, .Seconds⟩ (-1)))]).2.map
      Prod.fst) <:+
    ([((1 : Nat), AnyTask.loop ⟨⟨.valid 10000, 1⟩, ⟨10, .Seconds⟩, 1⟩),
      (2, AnyTask.point (TimePointUpdateTask.construct (.valid 5) .MilliSeconds)),
      (3, AnyTask.loop (BasicLoopUpdateTask.construct 0 ⟨10, .Seconds⟩ (-1)))].map
      Prod.fst) ∧
    (nextTask 20000
        [((1 : Nat), AnyTask.loop ⟨⟨.valid 10000, 1⟩, ⟨10, .Seconds⟩, 1⟩),
         (2, AnyTask.point (TimePointUpdateTask.construct (.valid 5) .MilliSeconds)),
         (3, AnyTask.loop (BasicLoopUpdateTask.construct 0 ⟨10, .Seconds⟩ (-1)))]).2.map
      Prod.fst = [3] :=
  ⟨(suffix_after_call Prod.fst (fun _ _ => ⟨rfl, rfl⟩) 20000
    [((1 : Nat), AnyTask.loop ⟨⟨.valid 10000, 1⟩, ⟨10, .Seconds⟩, 1⟩),
     (2, AnyTask.point (TimePointUpdateTask.construct (.valid 5) .MilliSeconds)),
     (3, AnyTask.loop (BasicLoopUpdateTask.construct 0 ⟨10, .Seconds⟩ (-1)))]).1.1, by decide⟩

end UpdateTaskList

/-- Moving a date `k > 0` months ahead, with the day clamped to the length of the
target month, gives a later date. -/
theorem fixedDate_months_ahead_strict (z : Int) (k : Nat) (hk : k ≠ 0) :
    z < fixedDate
      (((getDateFromJulianDay z).1 * 12 + ((getDateFromJulianDay z).2.1 - 1) + k) / 12)
      (((getDateFromJulianDay z).1 * 12 + ((getDateFromJulianDay z).2.1 - 1) + k) % 12 + 1)
      (getDateFromJulianDay z).2.2 := by
  have hrt := julianDayFromDate_getDate z
  obtain ⟨hm1, hm2, hd1, hd2⟩ := getDate_valid z
  generalize (getDateFromJulianDay z).1 = y at *
  generalize (getDateFromJulianDay z).2.1 = m at *
  generalize (getDateFromJulianDay z).2.2 = d at *
  have hmono := julianDay_month_mono (y * 12 + (m - 1)) k
  have h1 : (y * 12 + (m - 1)) / 12 = y := by omega
  have h2 : (y * 12 + (m - 1)) % 12 + 1 = m := by omega
  rw [h1, h2, if_neg hk] at hmono
  rw [julianDayFromDate_day] at hrt
  unfold fixedDate
  rw [julianDayFromDate_day]
  have hpos := daysInMonth_ge ((y * 12 + (m - 1) + k) / 12) ((y * 12 + (m - 1) + k) % 12 + 1)
  have hmin : 1 ≤ min d (daysInMonth ((y * 12 + (m - 1) + k) / 12)
      ((y * 12 + (m - 1) + k) % 12 + 1)) := by
    apply le_min <;> omega
  omega

/-- `QDate::addMonths` with a positive count gives a later date. -/
theorem dateAddMonths_gt (z n : Int) (hn : 0 < n) : z < dateAddMonths z n := by
  obtain ⟨k, rfl⟩ : ∃ k : Nat, n = k := ⟨n.toNat, by omega⟩
  exact fixedDate_months_ahead_strict z k (by omega)

/-- `QDate::addYears` with a positive count gives a later date. -/
theorem dateAddYears_gt (z n : Int) (hn : 0 < n) : z < dateAddYears z n := by
  obtain ⟨k, rfl⟩ : ∃ k : Nat, n = k := ⟨n.toNat, by omega⟩
  have h := fixedDate_months_ahead_strict z (12 * k) (by omega)
  obtain ⟨hm1, hm2, -, -⟩ := getDate_valid z
  unfold dateAddYears
  dsimp only
  have h1 : ((getDateFromJulianDay z).1 * 12 + ((getDateFromJulianDay z).2.1 - 1) +
      ((12 * k : Nat) : Int)) / 12 = (getDateFromJulianDay z).1 + k := by
    push_cast; omega
  have h2 : ((getDateFromJulianDay z).1 * 12 + ((getDateFromJulianDay z).2.1 - 1) +
      ((12 * k : Nat) : Int)) % 12 + 1 = (getDateFromJulianDay z).2.1 := by
    push_cast; omega
  rw [h1, h2] at h
  exact h

/-- Replacing the day number of an instant by a strictly later one, keeping the time
of day, gives a later instant. -/
theorem msecs_of_strictly_later_day (t jd : Int) (h : t / msecsPerDay + epochJulianDay < jd) :
    t < (jd - epochJulianDay) * msecsPerDay + t % msecsPerDay := by
  unfold msecsPerDay epochJulianDay at *
  omega

/-- A pause span whose amount is positive moves an instant of the platform strictly
forward when the exact result does not exceed the `qint64` range. -/
theorem TimeSpan.addToDateTime_gt (p : TimeSpan) (now : Int) (hnow : -2 ^ 63 ≤ now)
    (h : 0 < p.castCount) (hfit : p.exactResult now < 2 ^ 63) :
    (p.addToDateTime (.valid now)).gt (.valid now) = true := by
  rw [(TimeSpan.addToDateTime_exact p now hnow (le_of_lt h) hfit).1]
  simp only [QDateTime.gt, QDateTime.lt, decide_eq_true_eq]
  obtain ⟨count, unit⟩ := p
  cases unit <;> simp only [TimeSpan.castCount] at h <;>
    simp only [TimeSpan.exactResult, TimeSpan.castCount]
  · omega
  · omega
  · omega
  · omega
  · unfold msecsPerDay; omega
  · unfold msecsPerDay; omega
  · exact msecs_of_strictly_later_day now _ (dateAddMonths_gt _ _ h)
  · exact msecs_of_strictly_later_day now _ (dateAddYears_gt _ _ h)

/-- After `LoopUpdateTask::hasTasks` the member `nextPoint` is set. -/
theorem LoopUpdateTask.hasTasks_initialised (r : Int) (p : TimeSpan) (now : Int)
    (s : LoopUpdateTask) : (LoopUpdateTask.hasTasks r p now s).2.nextPoint.isNull = false := by
  rw [LoopUpdateTask.hasTasks_snd]
  by_cases h : s.nextPoint.isNull = true
  · rw [if_pos h]
    exact TimeSpan.addToDateTime_valid _ now
  · rw [if_neg h]
    simpa using h

/-- `LoopUpdateTask::hasTasks` on an initialised task changes nothing. -/
theorem LoopUpdateTask.hasTasks_of_initialised (r : Int) (p : TimeSpan) (now : Int)
    (s : LoopUpdateTask) (h : s.nextPoint.isNull = false) :
    LoopUpdateTask.hasTasks r p now s =
      (s.nextPoint.gt (.valid now) && s.repetitionsLeft != 0, s) := by
  have h2 := LoopUpdateTask.hasTasks_snd r p now s
  rw [if_neg (by simp [h])] at h2
  have h1 := LoopUpdateTask.hasTasks_fst r p now s
  rw [h2] at h1
  exact Prod.ext h1 h2

/-- A second `hasTasks()` call on a loop task at the same clock value repeats the
first. -/
theorem LoopUpdateTask.loop_hasTasks_twice (r : Int) (p : TimeSpan) (now : Int) (s : LoopUpdateTask) :
    LoopUpdateTask.hasTasks r p now (LoopUpdateTask.hasTasks r p now s).2 =
      LoopUpdateTask.hasTasks r p now s := by
  rw [LoopUpdateTask.hasTasks_of_initialised r p now _
    (LoopUpdateTask.hasTasks_initialised r p now s)]
  exact Prod.ext (LoopUpdateTask.hasTasks_fst r p now s).symm rfl

/-- After a successful `nextTask()` on a loop task whose pause span moves the clock
value strictly forward, `hasTasks()` is true and changes nothing, unless the task is
an infinite one, on which `nextTask()` changes nothing. -/
theorem LoopUpdateTask.loop_after_nextTask (r : Int) (p : TimeSpan) (now : Int) (s : LoopUpdateTask)
    (hp : (p.addToDateTime (.valid now)).gt (.valid now) = true)
    (hn : (LoopUpdateTask.nextTask p now s).1 = true) :
    LoopUpdateTask.hasTasks r p now (LoopUpdateTask.nextTask p now s).2 =
        (true, (LoopUpdateTask.nextTask p now s).2) ∨
    LoopUpdateTask.nextTask p now s = (true, s) := by
  by_cases h0 : s.repetitionsLeft > 0
  · left
    by_cases h1 : s.repetitionsLeft - 1 > 0
    · have hs : LoopUpdateTask.nextTask p now s =
          (true, { nextPoint := p.addToDateTime (.valid now),
                   repetitionsLeft := s.repetitionsLeft - 1 }) := by
        simp [LoopUpdateTask.nextTask, h0, h1]
      rw [hs]
      rw [LoopUpdateTask.hasTasks_of_initialised r p now _ (TimeSpan.addToDateTime_valid p now)]
      simp only [hp, Bool.true_and, Prod.mk.injEq, and_true,
        bne_iff_ne, ne_eq]
      omega
    · simp [LoopUpdateTask.nextTask, h0, h1] at hn
  · right
    by_cases h2 : s.repetitionsLeft < 0
    · simp [LoopUpdateTask.nextTask, h0, h2]
    · simp [LoopUpdateTask.nextTask, h0, h2] at hn

/-- A second `hasTasks()` call on a list element at the same clock value repeats the
first. -/
theorem AnyTask.hasTasks_twice (now : Int) (t : AnyTask) :
    UpdateTask.hasTasks now (UpdateTask.hasTasks now t).2 = UpdateTask.hasTasks now t := by
  cases t with
  | loop l =>
    have h := LoopUpdateTask.loop_hasTasks_twice l.repetitions l.pauseSpan now l.base
    simp only [UpdateTask.hasTasks, BasicLoopUpdateTask.hasTasks, BasicLoopUpdateTask.repetitions,
      BasicLoopUpdateTask.pauseSpan] at h ⊢
    rw [h]
  | point p =>
    simp only [UpdateTask.hasTasks, TimePointUpdateTask.timePoint_hasTasks_snd]

/-- After a successful `nextTask()` on a list element that advances, `hasTasks()` is
true and changes nothing, unless `nextTask()` changed nothing. -/
theorem AnyTask.after_nextTask (now : Int) (t : AnyTask) (hadv : t.AdvancesAt now)
    (hn : (UpdateTask.nextTask now t).1 = true) :
    UpdateTask.hasTasks now (UpdateTask.nextTask now t).2 =
        (true, (UpdateTask.nextTask now t).2) ∨
    UpdateTask.nextTask now t = (true, t) := by
  cases t with
  | loop l =>
    simp only [AnyTask.AdvancesAt] at hadv
    simp only [UpdateTask.nextTask, BasicLoopUpdateTask.nextTask,
      BasicLoopUpdateTask.pauseSpan] at hn
    rcases LoopUpdateTask.loop_after_nextTask l.repetitions l.loopDelta now l.base hadv hn with h | h
    · left
      simp only [BasicLoopUpdateTask.repetitions] at h
      simp only [UpdateTask.hasTasks, UpdateTask.nextTask, BasicLoopUpdateTask.hasTasks,
        BasicLoopUpdateTask.nextTask, BasicLoopUpdateTask.repetitions,
        BasicLoopUpdateTask.pauseSpan, h]
    · right
      simp only [UpdateTask.nextTask, BasicLoopUpdateTask.nextTask,
        BasicLoopUpdateTask.pauseSpan, h]
  | point p =>
    left
    obtain ⟨tp, u, np⟩ := p
    cases u
    · simp [UpdateTask.nextTask, TimePointUpdateTask.nextTask] at hn
    all_goals simp [UpdateTask.hasTasks, UpdateTask.nextTask, TimePointUpdateTask.nextTask,
      TimePointUpdateTask.hasTasks]

/-- Calls on a list element keep the property that its pause span advances. -/
theorem AnyTask.advances_hasTasks (now : Int) (t : AnyTask) (hadv : t.AdvancesAt now) :
    (UpdateTask.hasTasks now t).2.AdvancesAt now := by
  cases t with
  | loop l => exact hadv
  | point p => trivial

namespace UpdateTaskList

variable {τ : Type} [UpdateTask τ]

/-- When a second `hasTasks()` on an element repeats the first, `hasTasks()` on the
list that the eviction loop leaves repeats the result of the loop. -/
theorem hasTasks_after_evict (now : Int)
    (hE1 : ∀ t : τ, UpdateTask.hasTasks now (UpdateTask.hasTasks now t).2 =
      UpdateTask.hasTasks now t) (l : List τ) :
    hasTasks now (evict now l).2 = evict now l := by
  induction l with
  | nil => rfl
  | cons t rest ih =>
    by_cases h : (UpdateTask.hasTasks now t).1 = true
    · simp only [evict, h, if_true, hasTasks, hE1 t]
    · simp only [Bool.not_eq_true] at h
      simp only [evict, h, Bool.false_eq_true, if_false]
      exact ih

/-- A second `hasTasks()` call on a list at the same clock value repeats the first,
when a second `hasTasks()` on any element repeats the first and the first element,
once a `nextTask()` on it has succeeded, either reports a pending task or is left
unchanged by `nextTask()`. -/
theorem list_hasTasks_twice (now : Int) (l : List τ)
    (hE1 : ∀ t : τ, UpdateTask.hasTasks now (UpdateTask.hasTasks now t).2 =
      UpdateTask.hasTasks now t)
    (hE2 : ∀ t ∈ l.head?, (UpdateTask.nextTask now (UpdateTask.hasTasks now t).2).1 = true →
      UpdateTask.hasTasks now (UpdateTask.nextTask now (UpdateTask.hasTasks now t).2).2 =
          (true, (UpdateTask.nextTask now (UpdateTask.hasTasks now t).2).2) ∨
      UpdateTask.nextTask now (UpdateTask.hasTasks now t).2 =
          (true, (UpdateTask.hasTasks now t).2)) :
    hasTasks now (hasTasks now l).2 = hasTasks now l := by
  cases l with
  | nil => rfl
  | cons t rest =>
    by_cases hb : (UpdateTask.hasTasks now t).1 = true
    · simp only [hasTasks, hb, if_true, hE1 t]
    · simp only [Bool.not_eq_true] at hb
      by_cases nb : (UpdateTask.nextTask now (UpdateTask.hasTasks now t).2).1 = true
      · have hfirst : hasTasks now (t :: rest) =
            (true, (UpdateTask.nextTask now (UpdateTask.hasTasks now t).2).2 :: rest) := by
          simp only [hasTasks, hb, Bool.false_eq_true, if_false, nextTask, nb, if_true]
        rw [hfirst]
        rcases hE2 t (by simp) nb with h | h
        · simp only [hasTasks, h, if_true]
        · rw [h]
          have h1 := hE1 t
          have hf : (UpdateTask.hasTasks now (UpdateTask.hasTasks now t).2).1 = false := by
            rw [h1]; exact hb
          have hs : (UpdateTask.hasTasks now (UpdateTask.hasTasks now t).2).2 =
              (UpdateTask.hasTasks now t).2 := by rw [h1]
          simp only [hasTasks, hf, Bool.false_eq_true, if_false, hs, nextTask, h, if_true]
      · simp only [Bool.not_eq_true] at nb
        have hfirst : hasTasks now (t :: rest) =
            evict now ((UpdateTask.nextTask now (UpdateTask.hasTasks now t).2).2 :: rest) := by
          simp only [hasTasks, hb, Bool.false_eq_true, if_false, nextTask, nb]
        rw [hfirst]
        exact hasTasks_after_evict now hE1 _

/-- C15 (as amended): for every clock value and every list of interval and time-point
tasks whose first element, if it is an interval task, has a pause span that moves the
clock value strictly forward (`pauseSpan().addToDateTime(NOW)` is later than `NOW`),
a second `hasTasks()` call at the same clock value returns the same boolean as the
first and leaves the list as the first call left it. -/
theorem hasTasks_idempotent (now : Int) (l : List AnyTask)
    (hadv : ∀ t ∈ l.head?, AnyTask.AdvancesAt now t) :
    hasTasks now (hasTasks now l).2 = ((hasTasks now l).1, (hasTasks now l).2) := by
  show hasTasks now (hasTasks now l).2 = hasTasks now l
  apply list_hasTasks_twice now l (AnyTask.hasTasks_twice now)
  intro t ht hn
  exact AnyTask.after_nextTask now _ (AnyTask.advances_hasTasks now t (hadv t ht)) hn

/-- Witness for C15 (as amended): an overdue interval task with a 10 s pause ahead of
a daily task, polled twice at clock 20000. -/
theorem hasTasks_idempotent_witness :
    hasTasks 20000 (hasTasks 20000
        [AnyTask.loop ⟨⟨.valid 10000, 3⟩, ⟨10, .Seconds⟩, 3⟩,
         AnyTask.point (TimePointUpdateTask.construct (.valid 86400000) .Days)]).2 =
      ((hasTasks 20000
        [AnyTask.loop ⟨⟨.valid 10000, 3⟩, ⟨10, .Seconds⟩, 3⟩,
         AnyTask.point (TimePointUpdateTask.construct (.valid 86400000) .Days)]).1,
       (hasTasks 20000
        [AnyTask.loop ⟨⟨.valid 10000, 3⟩, ⟨10, .Seconds⟩, 3⟩,
         AnyTask.point (TimePointUpdateTask.construct (.valid 86400000) .Days)]).2) :=
  hasTasks_idempotent 20000
    [AnyTask.loop ⟨⟨.valid 10000, 3⟩, ⟨10, .Seconds⟩, 3⟩,
     AnyTask.point (TimePointUpdateTask.construct (.valid 86400000) .Days)]
    (by intro t ht; simp at ht; subst ht; simp only [AnyTask.AdvancesAt]; decide)

/-- Counterexample to C15 as stated: an interval task with the pause span
`TimeSpan(0, MilliSeconds)` and 3 repetitions, alone in a list, polled at clock 0.
Every `hasTasks()` call finds the task due, advances it and takes one repetition: the
first call returns true and leaves 2 repetitions, the second returns true and leaves
1, the third returns false and leaves the list empty. -/
theorem hasTasks_not_idempotent :
    hasTasks 0 [AnyTask.loop (BasicLoopUpdateTask.construct 0 ⟨0, .MilliSeconds⟩ 3)] =
      (true, [AnyTask.loop ⟨⟨.valid 0, 2⟩, ⟨0, .MilliSeconds⟩, 3⟩]) ∧
    hasTasks 0 [AnyTask.loop ⟨⟨.valid 0, 2⟩, ⟨0, .MilliSeconds⟩, 3⟩] =
      (true, [AnyTask.loop ⟨⟨.valid 0, 1⟩, ⟨0, .MilliSeconds⟩, 3⟩]) ∧
    hasTasks 0 [AnyTask.loop ⟨⟨.valid 0, 1⟩, ⟨0, .MilliSeconds⟩, 3⟩] =
      (false, []) := by
  decide

end UpdateTaskList

end QtAutoUpdater
